import Mathlib

/-!
# Verification of the rpm repository metadata reconciliation engine

A shallow embedding of `rpmrepo.py`: the metadata document model, the
version codec (`parse_ver_str`), the archive header mapper
(`header_to_filelists`, `header_to_primary`), the summary-document parser
(`parse_repomd`), the primary-document parser (`parse_primary`), and the
pure diff phase of the reconciliation engine (`update_repo`).

Conventions of the embedding:
* Python code that can raise is modelled in `Except String` (the message
  text is not part of any verified property).
* Numeric timestamps (storage modification times) are idealized as exact
  rationals `ℚ`; Python's `int(...)` truncation and decimal `str`/`float`
  conversions are modelled exactly on that type.
* Python dicts keyed by NERV tuples are modelled as association lists with
  the update-in-place-or-append semantics of dict assignment (`dinsert`).
* Python sets of tuples are modelled as `Finset`.
-/

namespace RpmRepo

/-- Package identity: the `nerv = (name, epoch, rel, ver)` tuple used as
dictionary key throughout the source.  Each component is optional because
XML text nodes and optional header fields can be `None` in the source. -/
structure Nerv where
  name : Option String
  epoch : Option String
  rel : Option String
  ver : Option String
deriving DecidableEq, Repr

/-- The `{'ver': ..., 'rel': ..., 'epoch': ...}` version dictionary. -/
structure Version where
  ver : Option String
  rel : Option String
  epoch : Option String
deriving DecidableEq, Repr

/-- A provides/obsoletes dependency-entry dictionary. -/
structure DepEntry where
  name : Option String
  epoch : Option String
  rel : Option String
  ver : Option String
  flags : Option String
deriving DecidableEq, Repr

/-- A requires dependency-entry dictionary (adds the `pre` marker). -/
structure ReqEntry where
  name : Option String
  epoch : Option String
  rel : Option String
  ver : Option String
  flags : Option String
  pre : Option String
deriving DecidableEq, Repr

/-- One `{'type': ..., 'name': ...}` file-manifest entry; `ftype` is the
literal `'file'` / `'dir'` string of the source. -/
structure FileEntry where
  ftype : String
  name : Option String
deriving DecidableEq, Repr

/-- The nested `format` dictionary of a primary package record. -/
structure Format where
  license : Option String
  vendor : Option String
  group : Option String
  buildhost : Option String
  sourcerpm : Option String
  header_start : Option String
  header_end : Option String
  provides : List (Nerv × DepEntry)
  requires : List (Nerv × ReqEntry)
  obsoletes : List (Nerv × DepEntry)
  files : List FileEntry
deriving DecidableEq, Repr

/-- A primary package record (the dictionary built by `parse_primary` and
`header_to_primary`). -/
structure Package where
  checksum : Option String
  name : Option String
  arch : Option String
  version : Version
  summary : Option String
  description : Option String
  packager : Option String
  url : Option String
  file_time : Option String
  build_time : Option String
  location : Option String
  format : Format
deriving DecidableEq, Repr

/-- A filelists package record (built by `header_to_filelists`). -/
structure FPackage where
  pkgid : Option String
  name : Option String
  arch : Option String
  version : Version
  files : List FileEntry
deriving DecidableEq, Repr

/-- Python dict assignment `d[k] = v` on an association list: update the
value in place when the key is present, append otherwise. -/
def dinsert {α β : Type} [DecidableEq α] (d : List (α × β)) (k : α) (v : β) :
    List (α × β) :=
  if k ∈ d.map Prod.fst then
    d.map (fun p => if p.1 = k then (k, v) else p)
  else d ++ [(k, v)]

/-! ## Version codec: `parse_ver_str` -/

/-- The maximal run of decimal digits at the head of `cs`, and what
follows; used to model the regex group `(\d+:)?`. -/
def splitEpoch (cs : List Char) : Option (List Char) × List Char :=
  let digits := cs.takeWhile Char.isDigit
  match cs.dropWhile Char.isDigit with
  | ':' :: tl => if digits = [] then (none, cs) else (some digits, tl)
  | _ => (none, cs)

/-- The character class `[^-]` of the version regex. -/
def notDash (c : Char) : Bool := c ≠ '-'

/-- `parse_ver_str` of the source: `""` (Python falsy input) returns the
all-`None` triple; otherwise the text must match
`^(\d+:)?([^-]*)-([^-]*)$` (an optional digits-and-colon epoch prefix,
then exactly one `-` splitting version from release), the absent epoch
defaulting to `"0"`; a non-matching text raises (`Except.error`). -/
def parse_ver_str (ver_str : String) : Except String (Option String × Option String × Option String) :=
  if ver_str = "" then .ok (none, none, none)
  else
    let cs := ver_str.toList
    let ep := splitEpoch cs
    let v := ep.2.takeWhile notDash
    match ep.2.dropWhile notDash with
    | '-' :: r =>
      if '-' ∈ r then .error ("Cant parse version: " ++ ver_str)
      else
        .ok (some (match ep.1 with | some d => String.mk d | none => "0"),
             some (String.mk v), some (String.mk r))
    | _ => .error ("Cant parse version: " ++ ver_str)

/-- The regex `^(\d+:)?([^-]*)-([^-]*)$` of the spec, as a predicate on
the character list of the text: either the whole text is a dash-free
version, one dash, and a dash-free release, or it additionally starts
with a non-empty run of digits followed by `:`. -/
def VerRegexMatch (s : String) : Prop :=
  (∃ v r : List Char, '-' ∉ v ∧ '-' ∉ r ∧ s.toList = v ++ '-' :: r) ∨
  (∃ d v r : List Char, d ≠ [] ∧ (∀ c ∈ d, c.isDigit = true) ∧
    '-' ∉ v ∧ '-' ∉ r ∧ s.toList = d ++ ':' :: (v ++ '-' :: r))

/-! ## Numeric conversions

Python's `str(int(mtime))` and `float(text)` on the decimal numerals this
program produces, idealized over exact rationals. -/

/-- The decimal digit character for `d < 10`. -/
def digitChar (d : Nat) : Char := Char.ofNat (48 + d)

/-- The numeric value of a decimal digit character. -/
def charVal (c : Char) : Nat := c.toNat - 48

/-- Big-endian decimal digits of `n`, with explicit fuel (the fuel is
structural; any fuel `≥ n` yields the digits of `n`). -/
def natToDigits : Nat → Nat → List Char
  | 0, _ => []
  | fuel + 1, n => if n = 0 then [] else natToDigits fuel (n / 10) ++ [digitChar (n % 10)]

/-- Canonical decimal text of a natural number. -/
def natChars (n : Nat) : List Char := if n = 0 then ['0'] else natToDigits n n

/-- Canonical decimal text of an integer (Python `str` of an int). -/
def intChars : Int → List Char
  | .ofNat n => natChars n
  | .negSucc m => '-' :: natChars (m + 1)

/-- Python `str(...)` of an integer. -/
def strOfInt (z : Int) : String := String.mk (intChars z)

/-- Python `int(...)` of a (rational-valued) number: truncation toward
zero. -/
def pyInt (q : ℚ) : Int := q.num.tdiv (q.den : Int)

/-- Value of a big-endian decimal digit string. -/
def valOfChars (l : List Char) : Nat := l.foldl (fun a c => a * 10 + charVal c) 0

/-- Parse a non-empty all-digit character list. -/
def parseDigits (l : List Char) : Option Nat :=
  if l = [] then none
  else if l.all Char.isDigit then some (valOfChars l) else none

/-- Everything except the decimal point. -/
def notDot (c : Char) : Bool := c ≠ '.'

/-- Unsigned decimal numeral, optionally with a fractional part. -/
def parseUnsignedQ (l : List Char) : Option ℚ :=
  let ip := l.takeWhile notDot
  match l.dropWhile notDot with
  | [] => (parseDigits ip).map (fun n => (n : ℚ))
  | '.' :: frac =>
    if '.' ∈ frac then none
    else if ip.all Char.isDigit && frac.all Char.isDigit
        && (!ip.isEmpty || !frac.isEmpty) then
      some ((valOfChars ip : ℚ) + (valOfChars frac : ℚ) / (10 ^ frac.length : ℚ))
    else none
  | _ => none

/-- Python `float(...)` on a text, idealized to exact rationals and
restricted to the plain decimal numerals this program produces and
consumes (optional sign, integer digits, optional fractional part). -/
def pyFloat? (s : String) : Option ℚ :=
  match s.toList with
  | '-' :: rest => (parseUnsignedQ rest).map Neg.neg
  | '+' :: rest => parseUnsignedQ rest
  | l => parseUnsignedQ l

/-! ## Archive header mapper -/

/-- Modelled from the spec: the fixed internal-only (rpmlib) dependency
bit `RPMSENSE_RPMLIB` of the external `rpmfile` collaborator, consumed by
the source as an opaque sentinel bitmask. -/
def RPMSENSE_RPMLIB : Nat := 16777216

/-- Modelled from the spec: `rpmfile.flags_to_str`, the Dependency Flag
Codec `decode` of the external collaborator; maps the comparison
sub-field of a dependency bitmask to one of the schema's relation
symbols, ignoring bits outside the comparison sub-field. -/
def flags_to_str (f : Nat) : Option String :=
  let cmp := f &&& 14
  if cmp = 8 then some "EQ"
  else if cmp = 2 then some "LT"
  else if cmp = 10 then some "LE"
  else if cmp = 4 then some "GT"
  else if cmp = 12 then some "GE"
  else none

/-- The header field dictionary delivered by the external archive-header
extractor: the well-known tags read by `header_to_filelists` and
`header_to_primary`.  Fields read with `header.get(..., default)` in the
source are optional here; fields read with `header[...]` are required. -/
structure Header where
  NAME : String
  ARCH : String
  EPOCH : Option String
  RELEASE : Option String
  VERSION : String
  SUMMARY : String
  DESCRIPTION : String
  PACKAGER : Option String
  BUILDTIME : String
  URL : String
  LICENSE : Option String
  VENDOR : Option String
  GROUP : Option String
  BUILDHOST : Option String
  SOURCERPM : Option String
  PROVIDENAME : List String
  PROVIDEVERSION : List String
  PROVIDEFLAGS : List Nat
  REQUIRENAME : List String
  REQUIREVERSION : List String
  REQUIREFLAGS : List Nat
  OBSOLETENAME : List String
  OBSOLETEVERSION : List String
  OBSOLETEFLAGS : List Nat
  BASENAMES : List String
  DIRNAMES : List String
  DIRINDEXES : List Nat
deriving DecidableEq, Repr

/-- Python `zip(a, b, c)`: truncating three-way zip. -/
def zip3 {α β γ : Type} (a : List α) (b : List β) (c : List γ) :
    List (α × β × γ) :=
  a.zip (b.zip c)

/-- The file-manifest construction shared verbatim by both header
mappers: one `'file'` entry per basename with its directory resolved
through `DIRINDEXES` (a raw, unchecked list index: out of range raises
`IndexError`), then one `'dir'` entry per directory-table slot. -/
def buildFiles (basenames dirnames : List String) (dirindexes : List Nat) :
    Except String (List FileEntry) := do
  let fs ← (basenames.zip dirindexes).mapM (fun entry =>
    match dirnames.get? entry.2 with
    | some dirname =>
      Except.ok ({ ftype := "file", name := some (dirname ++ entry.1) } : FileEntry)
    | none => Except.error "IndexError: list index out of range")
  return fs ++ dirnames.map (fun dirname =>
    ({ ftype := "dir", name := some dirname } : FileEntry))

/-- `header_to_filelists` of the source. -/
def header_to_filelists (header : Header) (sha256 : String) :
    Except String (Nerv × FPackage) := do
  let version : Version := ⟨some header.VERSION, header.RELEASE, header.EPOCH⟩
  let files ← buildFiles header.BASENAMES header.DIRNAMES header.DIRINDEXES
  let package : FPackage :=
    ⟨some sha256, some header.NAME, some header.ARCH, version, files⟩
  let nerv : Nerv := ⟨some header.NAME, version.epoch, version.rel, version.ver⟩
  return (nerv, package)

/-- Loop body of the provides block of `header_to_primary`: parse the
entry's version, decode its flags, insert under its nerv key. -/
def addProvides (d : List (Nerv × DepEntry)) (entry : String × String × Nat) :
    Except String (List (Nerv × DepEntry)) := do
  let t ← parse_ver_str entry.2.1
  let flags := flags_to_str entry.2.2
  let nerv : Nerv := ⟨some entry.1, t.1, t.2.2, t.2.1⟩
  return dinsert d nerv ⟨some entry.1, t.1, t.2.2, t.2.1, flags⟩

/-- Loop body of the requires block of `header_to_primary`: parse the
entry's version and decode its flags (both before the skip test, as in
the source), drop the entry when its flags carry the rpmlib bit, and
otherwise insert it with the `pre` marker derived from the `4352`
sentinel mask. -/
def addRequires (d : List (Nerv × ReqEntry)) (entry : String × String × Nat) :
    Except String (List (Nerv × ReqEntry)) := do
  let t ← parse_ver_str entry.2.1
  let flags := flags_to_str entry.2.2
  if entry.2.2 &&& RPMSENSE_RPMLIB ≠ 0 then
    return d
  else
    let pre : Option String := if entry.2.2 &&& 4352 ≠ 0 then some "1" else none
    let nerv : Nerv := ⟨some entry.1, t.1, t.2.2, t.2.1⟩
    return dinsert d nerv ⟨some entry.1, t.1, t.2.2, t.2.1, flags, pre⟩

/-- Loop body of the obsoletes block of `header_to_primary`. -/
def addObsoletes (d : List (Nerv × DepEntry)) (entry : String × String × Nat) :
    Except String (List (Nerv × DepEntry)) := do
  let t ← parse_ver_str entry.2.1
  let flags := flags_to_str entry.2.2
  let nerv : Nerv := ⟨some entry.1, t.1, t.2.2, t.2.1⟩
  return dinsert d nerv ⟨some entry.1, t.1, t.2.2, t.2.1, flags⟩

/-- `header_to_primary` of the source. -/
def header_to_primary (header : Header) (sha256 : String) (mtime : ℚ)
    (location : String) : Except String (Nerv × Package) := do
  let version : Version := ⟨some header.VERSION, header.RELEASE, header.EPOCH⟩
  let provides_dict ←
    (zip3 header.PROVIDENAME header.PROVIDEVERSION header.PROVIDEFLAGS).foldlM
      addProvides []
  let requires_dict ←
    (zip3 header.REQUIRENAME header.REQUIREVERSION header.REQUIREFLAGS).foldlM
      addRequires []
  let obsoletes_dict ←
    (zip3 header.OBSOLETENAME header.OBSOLETEVERSION header.OBSOLETEFLAGS).foldlM
      addObsoletes []
  let files ← buildFiles header.BASENAMES header.DIRNAMES header.DIRINDEXES
  let format_dict : Format := ⟨header.LICENSE, header.VENDOR, header.GROUP,
    header.BUILDHOST, header.SOURCERPM, none, none,
    provides_dict, requires_dict, obsoletes_dict, files⟩
  let package : Package := ⟨some sha256, some header.NAME, some header.ARCH,
    version, some header.SUMMARY, some header.DESCRIPTION, header.PACKAGER,
    some header.URL, some (strOfInt (pyInt mtime)), some header.BUILDTIME,
    some location, format_dict⟩
  let nerv : Nerv := ⟨some header.NAME, version.epoch, version.rel, version.ver⟩
  return (nerv, package)

/-! ## Structured documents: the ElementTree fragment used by the parsers -/

/-- An ElementTree element: tag (with the XML namespace already resolved
into the `\x7buri\x7dname` form), attributes, text, children. -/
inductive XmlNode : Type where
  | node : String → List (String × String) → Option String → List XmlNode → XmlNode

def XmlNode.tag : XmlNode → String
  | .node t _ _ _ => t

def XmlNode.attrib : XmlNode → List (String × String)
  | .node _ a _ _ => a

def XmlNode.text : XmlNode → Option String
  | .node _ _ tx _ => tx

def XmlNode.children : XmlNode → List XmlNode
  | .node _ _ _ ch => ch

/-- `elem.attrib.get(key, None)`. -/
def attribGet (n : XmlNode) (k : String) : Option String :=
  (n.attrib.find? (fun p => p.1 == k)).map Prod.snd

/-- `elem.attrib[key]`: raises `KeyError` when absent. -/
def requiredAttr (n : XmlNode) (k : String) : Except String String :=
  match attribGet n k with
  | some v => .ok v
  | none => .error ("KeyError: " ++ k)

/-- `elem.find(tag)` followed by use of the result: raises
(`AttributeError` on `None`) when no child has the tag. -/
def requiredChild (n : XmlNode) (tag : String) : Except String XmlNode :=
  match n.children.find? (fun c => c.tag == tag) with
  | some c => .ok c
  | none => .error ("AttributeError: " ++ tag)

/-- `elem.find(tag).text`: the tag must resolve, the text may be `None`. -/
def requiredText (n : XmlNode) (tag : String) : Except String (Option String) :=
  (requiredChild n tag).map XmlNode.text

/-- The resolved `repo` namespace prefix of `parse_repomd`. -/
def repoNS : String := "\x7bhttp://linux.duke.edu/metadata/repo\x7d"

/-- The resolved `primary` (common) namespace prefix of `parse_primary`. -/
def primaryNS : String := "\x7bhttp://linux.duke.edu/metadata/common\x7d"

/-- The resolved `rpm` namespace prefix of `parse_primary`. -/
def rpmNS : String := "\x7bhttp://linux.duke.edu/metadata/rpm\x7d"

/-- One locator dictionary produced by `parse_repomd` for a recognized
record. -/
structure RepomdRecord where
  checksum : Option String
  open_checksum : Option String
  timestamp : Option String
  size : Option String
  open_size : Option String
  location : String
deriving DecidableEq, Repr

/-- Field extraction performed by `parse_repomd` for every child that
carries a `type` attribute (before the type is inspected). -/
def extractRepomd (child : XmlNode) : Except String RepomdRecord := do
  let checksum ← requiredText child (repoNS ++ "checksum")
  let open_checksum ← requiredText child (repoNS ++ "open-checksum")
  let timestamp ← requiredText child (repoNS ++ "timestamp")
  let size ← requiredText child (repoNS ++ "size")
  let open_size ← requiredText child (repoNS ++ "open-size")
  let locEl ← requiredChild child (repoNS ++ "location")
  let href ← requiredAttr locEl "href"
  return ⟨checksum, open_checksum, timestamp, size, open_size, href⟩

/-- Loop body of `parse_repomd`: children without a `type` attribute are
skipped; every child with a `type` attribute has its fields extracted
(before the type value is inspected); `filelists`/`primary` typed records
land in the result slots, other types are dropped. -/
def repomdStep (st : Option RepomdRecord × Option RepomdRecord)
    (child : XmlNode) :
    Except String (Option RepomdRecord × Option RepomdRecord) :=
  match attribGet child "type" with
  | none => pure st
  | some ty => do
    let result ← extractRepomd child
    if ty = "filelists" then return (some result, st.2)
    else if ty = "primary" then return (st.1, some result)
    else return st

/-- `parse_repomd` of the source. -/
def parse_repomd (root : XmlNode) :
    Except String (Option RepomdRecord × Option RepomdRecord) :=
  root.children.foldlM repomdStep (none, none)

/-- One provides/obsoletes entry node of `parse_primary`: `name` is a
required attribute, the rest are optional. -/
def parseDepEntry (entry : XmlNode) : Except String (Nerv × DepEntry) := do
  let name ← requiredAttr entry "name"
  let epoch := attribGet entry "epoch"
  let rel := attribGet entry "rel"
  let ver := attribGet entry "ver"
  let flags := attribGet entry "flags"
  return (⟨some name, epoch, rel, ver⟩, ⟨some name, epoch, rel, ver, flags⟩)

/-- One requires entry node of `parse_primary`: additionally reads the
optional `pre` attribute. -/
def parseReqEntry (entry : XmlNode) : Except String (Nerv × ReqEntry) := do
  let name ← requiredAttr entry "name"
  let epoch := attribGet entry "epoch"
  let rel := attribGet entry "rel"
  let ver := attribGet entry "ver"
  let flags := attribGet entry "flags"
  let pre := attribGet entry "pre"
  return (⟨some name, epoch, rel, ver⟩, ⟨some name, epoch, rel, ver, flags, pre⟩)

/-- One `file` node of `parse_primary`/`parse_filelists`: a `dir` entry
exactly when the `type` attribute says so. -/
def parseFileNode (node : XmlNode) : FileEntry :=
  let ftype := match attribGet node "type" with
    | some t => if t = "dir" then "dir" else "file"
    | none => "file"
  ⟨ftype, node.text⟩

/-- The children of `fmt.find(tag)`, or `[]` when the element is absent
(the `if ... is None: ... = []` idiom of the source). -/
def depChildren (fmt : XmlNode) (tag : String) : List XmlNode :=
  match fmt.children.find? (fun c => c.tag == tag) with
  | some el => el.children
  | none => []

/-- The per-package body of `parse_primary`. -/
def parsePrimaryPackage (child : XmlNode) : Except String (Nerv × Package) := do
  let checksum ← requiredText child (primaryNS ++ "checksum")
  let name ← requiredText child (primaryNS ++ "name")
  let arch ← requiredText child (primaryNS ++ "arch")
  let summary ← requiredText child (primaryNS ++ "summary")
  let description ← requiredText child (primaryNS ++ "description")
  let packager ← requiredText child (primaryNS ++ "packager")
  let url ← requiredText child (primaryNS ++ "url")
  let time ← requiredChild child (primaryNS ++ "time")
  let file_time ← requiredAttr time "file"
  let build_time ← requiredAttr time "build"
  let locEl ← requiredChild child (primaryNS ++ "location")
  let location ← requiredAttr locEl "href"
  let versionEl ← requiredChild child (primaryNS ++ "version")
  let ver ← requiredAttr versionEl "ver"
  let rel ← requiredAttr versionEl "rel"
  let epoch ← requiredAttr versionEl "epoch"
  let version : Version := ⟨some ver, some rel, some epoch⟩
  let fmt ← requiredChild child (primaryNS ++ "format")
  let format_license ← requiredText fmt (rpmNS ++ "license")
  let format_vendor ← requiredText fmt (rpmNS ++ "vendor")
  let format_group ← requiredText fmt (rpmNS ++ "group")
  let format_buildhost ← requiredText fmt (rpmNS ++ "buildhost")
  let format_sourcerpm ← requiredText fmt (rpmNS ++ "sourcerpm")
  let header_range ← requiredChild fmt (rpmNS ++ "header-range")
  let format_header_start ← requiredAttr header_range "start"
  let format_header_end ← requiredAttr header_range "end"
  let provides_dict ← (depChildren fmt (rpmNS ++ "provides")).foldlM
    (fun d e => do
      let kv ← parseDepEntry e
      return dinsert d kv.1 kv.2) []
  let requires_dict ← (depChildren fmt (rpmNS ++ "requires")).foldlM
    (fun d e => do
      let kv ← parseReqEntry e
      return dinsert d kv.1 kv.2) []
  let obsoletes_dict ← (depChildren fmt (rpmNS ++ "obsoletes")).foldlM
    (fun d e => do
      let kv ← parseDepEntry e
      return dinsert d kv.1 kv.2) []
  let files := (fmt.children.filter
    (fun c => c.tag == primaryNS ++ "file")).map parseFileNode
  let format_dict : Format := ⟨format_license, format_vendor, format_group,
    format_buildhost, format_sourcerpm, some format_header_start,
    some format_header_end, provides_dict, requires_dict, obsoletes_dict, files⟩
  let package : Package := ⟨checksum, name, arch, version, summary, description,
    packager, url, some file_time, some build_time, some location, format_dict⟩
  let nerv : Nerv := ⟨name, version.epoch, version.rel, version.ver⟩
  return (nerv, package)

/-- `str.endswith(suffix)` on tags. -/
def tagEndsWith (tag suffix : String) : Bool :=
  let t := tag.toList
  let s := suffix.toList
  decide (s.length ≤ t.length) && (t.drop (t.length - s.length) == s)

/-- `parse_primary` of the source: the packages dictionary built from all
root children whose tag ends in `\x7dpackage`. -/
def parse_primary (root : XmlNode) : Except String (List (Nerv × Package)) :=
  root.children.foldlM
    (fun packages child =>
      if tagEndsWith child.tag "\x7dpackage" then do
        let kv ← parsePrimaryPackage child
        return dinsert packages kv.1 kv.2
      else
        return packages) []

/-! ## Reconciliation engine: the diff phase of `update_repo` -/

/-- The storage facts consumed by the diff phase: the recursive listing
`storage.files('.')` and the per-path `storage.mtime`. -/
structure StorageState where
  files : List String
  mtime : String → ℚ

/-- `re.match("^.*\.rpm$", path)`: `.` does not cross a newline and `$`
also matches just before a single trailing newline, so the path matches
iff, after discarding one trailing newline if present, it ends in `.rpm`
preceded by a newline-free prefix. -/
def matchesRpmExpr (path : String) : Bool :=
  let l := path.toList
  let core := if l.getLast? = some '\n' then l.dropLast else l
  decide (4 ≤ core.length) && (core.drop (core.length - 4) == ['.', 'r', 'p', 'm'])
    && !(core.take (core.length - 4)).contains '\n'

/-- The `recorded_files` set of `update_repo`: one
`(location, float(file_time))` pair per primary record; `float` can fail
(and `None` values make it fail), so the result is optional. -/
def recorded_files (primary : List (Nerv × Package)) :
    Option (Finset (Option String × ℚ)) :=
  ((primary.map Prod.snd).mapM (fun (package : Package) =>
    (package.file_time.bind pyFloat?).map
      (fun q => (package.location, q)))).map List.toFinset

/-- The `existing_files` set of `update_repo`: one `(path, mtime)` pair
per storage entry whose path matches the `.rpm` pattern. -/
def existing_files (st : StorageState) : Finset (Option String × ℚ) :=
  ((st.files.filter matchesRpmExpr).map
    (fun file_path => ((some file_path : Option String), st.mtime file_path))).toFinset

/-- `files_to_add = existing_files - recorded_files` of `update_repo`. -/
def files_to_add (primary : List (Nerv × Package)) (st : StorageState) :
    Option (Finset (Option String × ℚ)) :=
  (recorded_files primary).map (fun recorded => existing_files st \ recorded)

/-! ## Reconciliation engine: one iteration of the ingestion loop -/

/-- The per-archive effects of the ingestion loop body: the outcomes of
`storage.download_file`, of the external header extraction
(`rpminfo.parse_file`) and of `file_checksum` on the staged copy. -/
structure IngestOps where
  download : Except String Unit
  parse_file : Except String Header
  checksum : Except String String

/-- One iteration of the ingestion loop of `update_repo`: create the
scratch directory (`tempfile.mkdtemp`), download, parse the header,
compute the checksum, remove the scratch directory (`shutil.rmtree` -
straight-line code, no `finally`), then derive the records.  The boolean
component reports whether the scratch directory was removed by the time
the iteration ends. -/
def ingest_one (ops : IngestOps) (mtime : ℚ) (file_path : String) :
    Except String (Nerv × Package × FPackage) × Bool :=
  match ops.download with
  | .error e => (.error e, false)
  | .ok _ =>
    match ops.parse_file with
    | .error e => (.error e, false)
    | .ok header =>
      match ops.checksum with
      | .error e => (.error e, false)
      | .ok sha256 =>
        match header_to_primary header sha256 mtime file_path with
        | .error e => (.error e, true)
        | .ok np =>
          match header_to_filelists header sha256 with
          | .error e => (.error e, true)
          | .ok nf => (.ok (np.1, np.2, nf.2), true)

/-! ## Concrete fixtures for witnesses and counterexamples -/

/-- A header with no files and no dependencies; scalar fields as given. -/
def plainHeader (nm arch ver : String) (rel epoch : Option String) : Header :=
  { NAME := nm, ARCH := arch, EPOCH := epoch, RELEASE := rel, VERSION := ver,
    SUMMARY := "sum", DESCRIPTION := "desc", PACKAGER := none,
    BUILDTIME := "10", URL := "url", LICENSE := none, VENDOR := none,
    GROUP := none, BUILDHOST := none, SOURCERPM := none,
    PROVIDENAME := [], PROVIDEVERSION := [], PROVIDEFLAGS := [],
    REQUIRENAME := [], REQUIREVERSION := [], REQUIREFLAGS := [],
    OBSOLETENAME := [], OBSOLETEVERSION := [], OBSOLETEFLAGS := [],
    BASENAMES := [], DIRNAMES := [], DIRINDEXES := [] }

/-- The synthetic header of the round-trip property: one file
`/usr/bin/foo` in directory `/usr/bin/`, no dependencies. -/
def roundtripHeader : Header :=
  { plainHeader "pkg" "x86_64" "1.0" (some "1") none with
    BASENAMES := ["foo"], DIRNAMES := ["/usr/bin/"], DIRINDEXES := [0] }

/-- A header with two requires entries: an ordinary versioned one and an
rpmlib-internal one. -/
def requiresHeader : Header :=
  { plainHeader "pkg" "x86_64" "1.0" (some "1") none with
    REQUIRENAME := ["a", "b"], REQUIREVERSION := ["1:2-3", ""],
    REQUIREFLAGS := [4360, RPMSENSE_RPMLIB] }

/-- A header whose only provides entry has a malformed version text. -/
def badVersionHeader : Header :=
  { plainHeader "pkg" "x86_64" "1.0" (some "1") none with
    PROVIDENAME := ["p"], PROVIDEVERSION := ["x"], PROVIDEFLAGS := [0] }

/-- A header with a directory index pointing outside `DIRNAMES`. -/
def badIndexHeader : Header :=
  { plainHeader "pkg" "x86_64" "1.0" (some "1") none with
    BASENAMES := ["foo"], DIRNAMES := ["/usr/bin/"], DIRINDEXES := [7] }

/-- A header whose directory table is empty and whose only directory
index, `7`, is out of range but paired with no basename (the basename
array is empty, so the zip never reaches it). -/
def unusedIndexHeader : Header :=
  { plainHeader "pkg" "x86_64" "1.0" (some "1") none with
    BASENAMES := [], DIRNAMES := [], DIRINDEXES := [7] }

/-- A repomd child element in the repo namespace. -/
def rmField (tag : String) (txt : Option String) : XmlNode :=
  XmlNode.node (repoNS ++ tag) [] txt []

/-- A well-formed repomd record of the given type and location href. -/
def rmRecord (ty href : String) : XmlNode :=
  XmlNode.node "data" [("type", ty)] none
    [rmField "checksum" (some "ck"), rmField "open-checksum" (some "ock"),
     rmField "timestamp" (some "1"), rmField "size" (some "2"),
     rmField "open-size" (some "3"),
     XmlNode.node (repoNS ++ "location") [("href", href)] none []]

/-- A record with a `type` attribute of unrecognized value and none of
the required child fields. -/
def badTypedRecord : XmlNode :=
  XmlNode.node "data" [("type", "other")] none []

/-- A document root over the given records. -/
def mkRoot (children : List XmlNode) : XmlNode :=
  XmlNode.node "root" [] none children

/-- A primary-namespace element. -/
def pField (tag : String) (txt : Option String) : XmlNode :=
  XmlNode.node (primaryNS ++ tag) [] txt []

/-- An rpm-namespace element. -/
def rpmField (tag : String) (txt : Option String) : XmlNode :=
  XmlNode.node (rpmNS ++ tag) [] txt []

/-- A well-formed primary package node whose `name` text is the given
value; all other required fields are fixed. -/
def samplePkgNode (nm : Option String) : XmlNode :=
  XmlNode.node (primaryNS ++ "package") [] none
    [pField "checksum" (some "ck"),
     XmlNode.node (primaryNS ++ "name") [] nm [],
     pField "arch" (some "noarch"),
     pField "summary" (some "s"),
     pField "description" (some "d"),
     pField "packager" none,
     pField "url" none,
     XmlNode.node (primaryNS ++ "time") [("file", "100"), ("build", "90")] none [],
     XmlNode.node (primaryNS ++ "location") [("href", "a.rpm")] none [],
     XmlNode.node (primaryNS ++ "version")
       [("ver", "1"), ("rel", "2"), ("epoch", "0")] none [],
     XmlNode.node (primaryNS ++ "format") [] none
       [rpmField "license" none, rpmField "vendor" none, rpmField "group" none,
        rpmField "buildhost" none, rpmField "sourcerpm" none,
        XmlNode.node (rpmNS ++ "header-range") [("start", "0"), ("end", "1")] none []]]

/-- The package record that `parse_primary` derives from
`samplePkgNode nm`. -/
def samplePkg (nm : Option String) : Package :=
  { checksum := some "ck", name := nm, arch := some "noarch",
    version := ⟨some "1", some "2", some "0"⟩, summary := some "s",
    description := some "d", packager := none, url := none,
    file_time := some "100", build_time := some "90",
    location := some "a.rpm",
    format := ⟨none, none, none, none, none, some "0", some "1", [], [], [], []⟩ }

/-- A one-package primary index whose single record is located at
`a.rpm` with `file_time` text `"100"`. -/
def sampleIndex : List (Nerv × Package) :=
  [(⟨some "pkg", some "0", some "2", some "1"⟩,
    { checksum := some "ck", name := some "pkg", arch := some "noarch",
      version := ⟨some "1", some "2", some "0"⟩, summary := some "s",
      description := some "d", packager := none, url := none,
      file_time := some "100", build_time := some "90",
      location := some "a.rpm",
      format := ⟨none, none, none, none, none, some "0", some "1", [], [], [], []⟩ })]

/-- A storage state reporting the single archive `a.rpm` with the given
modification time. -/
def sampleStorage (m : ℚ) : StorageState :=
  { files := ["a.rpm"], mtime := fun _ => m }

/-! # Theorems -/

/-- Membership in `dinsert`: every entry of the updated dict is the new
binding or an entry of the old dict. -/
theorem mem_dinsert {α β : Type} [DecidableEq α] (d : List (α × β)) (k : α)
    (v : β) (kv : α × β) (h : kv ∈ dinsert d k v) : kv = (k, v) ∨ kv ∈ d := by
  unfold dinsert at h
  by_cases hk : k ∈ d.map Prod.fst
  · simp only [hk, if_pos] at h
    rcases List.mem_map.mp h with ⟨p, hp, hpe⟩
    by_cases hpk : p.1 = k
    · simp only [hpk, if_pos] at hpe
      exact Or.inl hpe.symm
    · simp only [hpk, if_neg, not_false_iff] at hpe
      exact Or.inr (hpe ▸ hp)
  · simp only [hk, if_neg, not_false_iff, List.mem_append, List.mem_singleton] at h
    rcases h with h | h
    · exact Or.inr h
    · exact Or.inl h

/-! ### takeWhile/dropWhile decomposition lemmas -/

theorem takeWhile_all_append {α : Type} (p : α → Bool) (v : List α) (a : α)
    (r : List α) (hv : ∀ c ∈ v, p c = true) (ha : p a = false) :
    (v ++ a :: r).takeWhile p = v := by
  induction v with
  | nil => simp [List.takeWhile, ha]
  | cons x xs ih =>
    have hx : p x = true := hv x (List.mem_cons_self x xs)
    simp only [List.cons_append, List.takeWhile, hx]
    exact congrArg (x :: ·) (ih fun c hc => hv c (List.mem_cons_of_mem x hc))

theorem dropWhile_all_append {α : Type} (p : α → Bool) (v : List α) (a : α)
    (r : List α) (hv : ∀ c ∈ v, p c = true) (ha : p a = false) :
    (v ++ a :: r).dropWhile p = a :: r := by
  induction v with
  | nil => simp [List.dropWhile, ha]
  | cons x xs ih =>
    have hx : p x = true := hv x (List.mem_cons_self x xs)
    simp only [List.cons_append, List.dropWhile, hx]
    exact ih fun c hc => hv c (List.mem_cons_of_mem x hc)

theorem mem_of_mem_takeWhile {α : Type} (p : α → Bool) :
    ∀ (l : List α), ∀ c ∈ l.takeWhile p, p c = true := by
  intro l
  induction l with
  | nil => intro c hc; simp [List.takeWhile] at hc
  | cons x xs ih =>
    intro c hc
    simp only [List.takeWhile] at hc
    cases hpx : p x with
    | false => rw [hpx] at hc; simp at hc
    | true =>
      rw [hpx] at hc
      rcases List.mem_cons.mp hc with h | h
      · exact h ▸ hpx
      · exact ih c h

theorem takeWhile_append_dropWhile' {α : Type} (p : α → Bool) (l : List α) :
    l.takeWhile p ++ l.dropWhile p = l := by
  induction l with
  | nil => rfl
  | cons x xs ih =>
    simp only [List.takeWhile, List.dropWhile]
    cases hpx : p x with
    | false => simp
    | true => simp [ih]

/-- If `splitEpoch` produces an epoch, the input decomposes as a
non-empty digit run, a colon, and the tail. -/
theorem splitEpoch_some (cs d tl : List Char)
    (h : splitEpoch cs = (some d, tl)) :
    d ≠ [] ∧ (∀ c ∈ d, c.isDigit = true) ∧ cs = d ++ ':' :: tl := by
  unfold splitEpoch at h
  rcases hdw : cs.dropWhile Char.isDigit with _ | ⟨c, rest⟩
  · rw [hdw] at h; exact absurd h (by simp)
  · rw [hdw] at h
    by_cases hc : c = ':'
    · subst hc
      by_cases hd : cs.takeWhile Char.isDigit = []
      · simp [hd] at h
      · simp only [hd, if_neg, not_false_iff] at h
        injection h with h1 h2
        have h1' : cs.takeWhile Char.isDigit = d := Option.some.inj h1
        have hw := takeWhile_append_dropWhile' Char.isDigit cs
        rw [hdw, h1', h2] at hw
        refine ⟨by rw [← h1']; exact hd, ?_, hw.symm⟩
        intro x hx
        exact mem_of_mem_takeWhile _ cs x (by rw [h1']; exact hx)
    · split at h
      · next heq =>
        injection heq with hceq _
        exact absurd hceq hc
      · exact absurd h (by simp)

/-- If `splitEpoch` finds no epoch, it returns the input unchanged. -/
theorem splitEpoch_none (cs tl : List Char) (h : splitEpoch cs = (none, tl)) :
    tl = cs := by
  unfold splitEpoch at h
  rcases hdw : cs.dropWhile Char.isDigit with _ | ⟨c, rest⟩
  · rw [hdw] at h; injection h with _ h2; exact h2.symm
  · rw [hdw] at h
    by_cases hc : c = ':'
    · subst hc
      by_cases hd : cs.takeWhile Char.isDigit = []
      · simp only [hd, if_pos] at h
        injection h with _ h2; exact h2.symm
      · simp [hd] at h
    · split at h
      · next heq => injection heq with hceq _; exact absurd hceq hc
      · injection h with _ h2; exact h2.symm

/-- `splitEpoch` on a genuine digits-colon prefix finds exactly it. -/
theorem splitEpoch_of_prefix (d tl : List Char) (hd : d ≠ [])
    (hdig : ∀ c ∈ d, c.isDigit = true) :
    splitEpoch (d ++ ':' :: tl) = (some d, tl) := by
  have hcolon : (':' : Char).isDigit = false := by decide
  have ht := takeWhile_all_append Char.isDigit d ':' tl hdig hcolon
  have hdr := dropWhile_all_append Char.isDigit d ':' tl hdig hcolon
  unfold splitEpoch
  rw [ht, hdr]
  simp [hd]

/-- `splitEpoch` finds no epoch when the input has no digits-colon
prefix. -/
theorem splitEpoch_of_no_prefix (cs : List Char)
    (h : ¬ ∃ d tl : List Char, d ≠ [] ∧ (∀ c ∈ d, c.isDigit = true) ∧
      cs = d ++ ':' :: tl) :
    splitEpoch cs = (none, cs) := by
  rcases he : splitEpoch cs with ⟨eo, tl⟩
  cases eo with
  | none => rw [splitEpoch_none cs tl he]
  | some d =>
    obtain ⟨h1, h2, h3⟩ := splitEpoch_some cs d tl he
    exact absurd ⟨d, tl, h1, h2, h3⟩ h

/-! ### parse_ver_str: success and failure characterization -/

theorem notDash_of_not_mem (v : List Char) (hv : '-' ∉ v) :
    ∀ c ∈ v, notDash c = true := by
  intro c hc
  simp only [notDash, ne_eq, decide_not, Bool.not_eq_true', decide_eq_false_iff_not]
  intro hce
  exact hv (hce ▸ hc)

theorem notDash_dash : notDash '-' = false := by decide

theorem not_mem_of_all_notDash (v : List Char) (hv : ∀ c ∈ v, notDash c = true) :
    '-' ∉ v := by
  intro hm
  have := hv '-' hm
  rw [notDash_dash] at this
  exact Bool.false_ne_true this

/-- Success of `parse_ver_str` on a text with an epoch prefix. -/
theorem parse_ver_str_ok_epoch (s : String) (d v r : List Char)
    (hd : d ≠ []) (hdig : ∀ c ∈ d, c.isDigit = true)
    (hv : '-' ∉ v) (hr : '-' ∉ r)
    (hs : s.toList = d ++ ':' :: (v ++ '-' :: r)) :
    parse_ver_str s =
      .ok (some (String.mk d), some (String.mk v), some (String.mk r)) := by
  have hne : s ≠ "" := by
    intro he
    rw [he] at hs
    have h0 : ([] : List Char) = d ++ ':' :: (v ++ '-' :: r) := hs
    cases d with
    | nil => simp at h0
    | cons a as => simp at h0
  have ht := takeWhile_all_append notDash v '-' r (notDash_of_not_mem v hv) notDash_dash
  have hdr := dropWhile_all_append notDash v '-' r (notDash_of_not_mem v hv) notDash_dash
  simp only [parse_ver_str, if_neg hne, hs,
    splitEpoch_of_prefix d (v ++ '-' :: r) hd hdig, ht, hdr]
  simp [hr]

/-- Success of `parse_ver_str` on a text without an epoch prefix:
the epoch defaults to `"0"`. -/
theorem parse_ver_str_ok_noepoch (s : String) (v r : List Char)
    (hv : '-' ∉ v) (hr : '-' ∉ r)
    (hs : s.toList = v ++ '-' :: r)
    (hnp : ¬ ∃ d tl : List Char, d ≠ [] ∧ (∀ c ∈ d, c.isDigit = true) ∧
      s.toList = d ++ ':' :: tl) :
    parse_ver_str s = .ok (some "0", some (String.mk v), some (String.mk r)) := by
  have hne : s ≠ "" := by
    intro he
    rw [he] at hs
    have h0 : ([] : List Char) = v ++ '-' :: r := hs
    simp at h0
  have ht := takeWhile_all_append notDash v '-' r (notDash_of_not_mem v hv) notDash_dash
  have hdr := dropWhile_all_append notDash v '-' r (notDash_of_not_mem v hv) notDash_dash
  have hsp : splitEpoch s.toList = (none, s.toList) :=
    splitEpoch_of_no_prefix s.toList hnp
  rw [hs] at hsp
  simp only [parse_ver_str, if_neg hne, hs, hsp, ht, hdr]
  simp [hr]

/-- A dash-containing list splits at its first dash. -/
theorem exists_dash_split (l : List Char) (h : '-' ∈ l) :
    ∃ v r : List Char, '-' ∉ v ∧ l = v ++ '-' :: r := by
  induction l with
  | nil => simp at h
  | cons x xs ih =>
    by_cases hx : x = '-'
    · exact ⟨[], xs, by simp, by rw [hx]; rfl⟩
    · rcases List.mem_cons.mp h with h1 | h2
      · exact absurd h1.symm hx
      · obtain ⟨v, r, hv, he⟩ := ih h2
        refine ⟨x :: v, r, ?_, by rw [he]; rfl⟩
        intro hm
        rcases List.mem_cons.mp hm with h3 | h4
        · exact hx h3.symm
        · exact hv h4

/-- If `parse_ver_str` succeeds on a non-empty text, the text matches the
version regex. -/
theorem parse_ver_str_ok_match (s : String)
    (t : Option String × Option String × Option String)
    (hne : s ≠ "") (h : parse_ver_str s = .ok t) : VerRegexMatch s := by
  simp only [parse_ver_str, if_neg hne] at h
  rcases he : splitEpoch s.toList with ⟨eo, rest⟩
  rw [he] at h
  split at h
  · next r heq =>
    split at h
    · exact absurd h (by simp)
    · next hmem =>
      have hw := takeWhile_append_dropWhile' notDash rest
      rw [heq] at hw
      have hvfree : '-' ∉ rest.takeWhile notDash :=
        not_mem_of_all_notDash _ (fun c hc => mem_of_mem_takeWhile notDash rest c hc)
      cases eo with
      | none =>
        have hrc := splitEpoch_none s.toList rest he
        exact Or.inl ⟨_, r, hvfree, hmem, by rw [← hrc]; exact hw.symm⟩
      | some d =>
        obtain ⟨h1, h2, h3⟩ := splitEpoch_some s.toList d rest he
        exact Or.inr ⟨d, _, r, h1, h2, hvfree, hmem,
          by rw [h3]; exact congrArg (fun l => d ++ ':' :: l) hw.symm⟩
  · exact absurd h (by simp)

/-- If a non-empty text matches the version regex, `parse_ver_str`
succeeds on it. -/
theorem parse_ver_str_match_ok (s : String) (hm : VerRegexMatch s) :
    ∃ t, parse_ver_str s = .ok t := by
  rcases hm with ⟨v, r, hv, hr, hs⟩ | ⟨d, v, r, hd, hdig, hv, hr, hs⟩
  · by_cases hp : ∃ d tl : List Char, d ≠ [] ∧ (∀ c ∈ d, c.isDigit = true) ∧
      s.toList = d ++ ':' :: tl
    · obtain ⟨d, tl, hd, hdig, hse⟩ := hp
      have hdashd : '-' ∉ d := by
        intro hmem
        have := hdig '-' hmem
        simp at this
      have hcount : tl.count '-' = 1 := by
        have h1 : s.toList.count '-' = 1 := by
          rw [hs]
          simp [List.count_append, List.count_cons,
            List.count_eq_zero.mpr hv, List.count_eq_zero.mpr hr]
        rw [hse] at h1
        simpa [List.count_append, List.count_cons,
          List.count_eq_zero.mpr hdashd] using h1
      have hmemtl : '-' ∈ tl := by
        by_contra hnm
        rw [List.count_eq_zero.mpr hnm] at hcount
        exact one_ne_zero hcount.symm
      obtain ⟨v', r', hv', htl⟩ := exists_dash_split tl hmemtl
      have hr' : '-' ∉ r' := by
        rw [htl] at hcount
        simp [List.count_append, List.count_cons,
          List.count_eq_zero.mpr hv'] at hcount
        exact List.count_eq_zero.mp hcount
      exact ⟨_, parse_ver_str_ok_epoch s d v' r' hd hdig hv' hr'
        (by rw [hse, htl])⟩
    · exact ⟨_, parse_ver_str_ok_noepoch s v r hv hr hs hp⟩
  · exact ⟨_, parse_ver_str_ok_epoch s d v r hd hdig hv hr hs⟩

/-- **C2**: for every non-empty version text, `parse_ver_str` fails iff
the text does not match `^(\d+:)?([^-]*)-([^-]*)$`; on success it returns
the epoch digits (or `"0"` when the prefix is absent), the capture
between the optional prefix and the final dash, and the capture after it;
empty input returns the all-`None` triple without error. -/
theorem claim_c2_parse_ver_str (s : String) :
    (s = "" → parse_ver_str s = .ok (none, none, none)) ∧
    (s ≠ "" → ((∃ e, parse_ver_str s = .error e) ↔ ¬ VerRegexMatch s)) ∧
    (∀ d v r : List Char, d ≠ [] → (∀ c ∈ d, c.isDigit = true) →
      '-' ∉ v → '-' ∉ r → s.toList = d ++ ':' :: (v ++ '-' :: r) →
      parse_ver_str s =
        .ok (some (String.mk d), some (String.mk v), some (String.mk r))) ∧
    (∀ v r : List Char, '-' ∉ v → '-' ∉ r → s.toList = v ++ '-' :: r →
      (¬ ∃ d tl : List Char, d ≠ [] ∧ (∀ c ∈ d, c.isDigit = true) ∧
        s.toList = d ++ ':' :: tl) →
      parse_ver_str s = .ok (some "0", some (String.mk v), some (String.mk r))) := by
  refine ⟨?_, ?_, ?_, ?_⟩
  · intro he
    rw [he]
    rfl
  · intro hne
    constructor
    · rintro ⟨e, herr⟩ hm
      obtain ⟨t, hok⟩ := parse_ver_str_match_ok s hm
      rw [hok] at herr
      exact Except.noConfusion herr
    · intro hnm
      rcases hcase : parse_ver_str s with e | t
      · exact ⟨e, rfl⟩
      · exact absurd (parse_ver_str_ok_match s t hne hcase) hnm
  · intro d v r hd hdig hv hr hs
    exact parse_ver_str_ok_epoch s d v r hd hdig hv hr hs
  · intro v r hv hr hs hnp
    exact parse_ver_str_ok_noepoch s v r hv hr hs hnp

/-- Witness for C2 at the concrete text `1:2-3`. -/
theorem claim_c2_witness :
    parse_ver_str "1:2-3" = .ok (some "1", some "2", some "3") :=
  (claim_c2_parse_ver_str "1:2-3").2.2.1 ['1'] ['2'] ['3']
    (by decide) (by decide) (by decide) (by decide) (by decide)

/-! ### Decimal round-trip lemmas -/

theorem digitChar_isDigit : ∀ d : Fin 10,
    (digitChar d.val).isDigit = true ∧ charVal (digitChar d.val) = d.val := by
  decide

theorem valOfChars_append_singleton (xs : List Char) (c : Char) :
    valOfChars (xs ++ [c]) = valOfChars xs * 10 + charVal c := by
  simp [valOfChars, List.foldl_append]

theorem natToDigits_zero (fuel : Nat) : natToDigits fuel 0 = [] := by
  cases fuel with
  | zero => rfl
  | succ f => simp [natToDigits]

theorem natToDigits_spec (fuel : Nat) : ∀ n, 0 < n → n ≤ fuel →
    natToDigits fuel n ≠ [] ∧ (∀ c ∈ natToDigits fuel n, c.isDigit = true) ∧
    valOfChars (natToDigits fuel n) = n := by
  induction fuel with
  | zero => intro n h1 h2; omega
  | succ f ih =>
    intro n h1 h2
    have hne : ¬ n = 0 := Nat.pos_iff_ne_zero.mp h1
    have hmod : n % 10 < 10 := Nat.mod_lt n (by norm_num)
    obtain ⟨hdd0, hdv0⟩ := digitChar_isDigit ⟨n % 10, hmod⟩
    have hdd : (digitChar (n % 10)).isDigit = true := hdd0
    have hdv : charVal (digitChar (n % 10)) = n % 10 := hdv0
    rw [natToDigits, if_neg hne]
    by_cases h10 : n / 10 = 0
    · have hlt : n < 10 := by omega
      rw [h10, natToDigits_zero, List.nil_append]
      refine ⟨by simp, ?_, ?_⟩
      · intro c hc
        rw [List.mem_singleton] at hc
        rw [hc]
        exact hdd
      · show valOfChars [digitChar (n % 10)] = n
        have : valOfChars [digitChar (n % 10)] = charVal (digitChar (n % 10)) := by
          simp [valOfChars]
        rw [this, hdv]
        exact Nat.mod_eq_of_lt hlt
    · have hlt : n / 10 < n := Nat.div_lt_self h1 (by norm_num)
      have hle : n / 10 ≤ f := by omega
      obtain ⟨ih1, ih2, ih3⟩ := ih (n / 10) (Nat.pos_iff_ne_zero.mpr h10) hle
      refine ⟨by simp, ?_, ?_⟩
      · intro c hc
        rcases List.mem_append.mp hc with h | h
        · exact ih2 c h
        · rw [List.mem_singleton] at h
          rw [h]
          exact hdd
      · rw [valOfChars_append_singleton, ih3, hdv]
        omega

theorem natChars_spec (n : Nat) :
    natChars n ≠ [] ∧ (∀ c ∈ natChars n, c.isDigit = true) ∧
    valOfChars (natChars n) = n := by
  by_cases h0 : n = 0
  · subst h0
    refine ⟨by decide, ?_, by decide⟩
    intro c hc
    rw [show natChars 0 = ['0'] from rfl, List.mem_singleton] at hc
    rw [hc]
    decide
  · rw [natChars, if_neg h0]
    exact natToDigits_spec n n (Nat.pos_iff_ne_zero.mpr h0) le_rfl

theorem takeWhile_all {α : Type} (p : α → Bool) (l : List α)
    (h : ∀ c ∈ l, p c = true) : l.takeWhile p = l := by
  induction l with
  | nil => rfl
  | cons x xs ih =>
    have hx := h x (List.mem_cons_self x xs)
    simp only [List.takeWhile, hx]
    exact congrArg (x :: ·) (ih fun c hc => h c (List.mem_cons_of_mem x hc))

theorem dropWhile_all {α : Type} (p : α → Bool) (l : List α)
    (h : ∀ c ∈ l, p c = true) : l.dropWhile p = [] := by
  induction l with
  | nil => rfl
  | cons x xs ih =>
    have hx := h x (List.mem_cons_self x xs)
    simp only [List.dropWhile, hx]
    exact ih fun c hc => h c (List.mem_cons_of_mem x hc)

theorem notDot_of_isDigit (c : Char) (h : c.isDigit = true) : notDot c = true := by
  have hne : c ≠ '.' := by
    intro he
    rw [he] at h
    exact absurd h (by decide)
  simp [notDot, hne]

theorem parseUnsignedQ_digits (l : List Char) (hne : l ≠ [])
    (hdig : ∀ c ∈ l, c.isDigit = true) :
    parseUnsignedQ l = some ((valOfChars l : ℚ)) := by
  have hnd : ∀ c ∈ l, notDot c = true := fun c hc => notDot_of_isDigit c (hdig c hc)
  have ht : l.takeWhile notDot = l := takeWhile_all notDot l hnd
  have hd : l.dropWhile notDot = [] := dropWhile_all notDot l hnd
  simp only [parseUnsignedQ, ht, hd]
  rw [parseDigits, if_neg hne, if_pos (List.all_eq_true.mpr hdig)]
  rfl

theorem pyFloat_strOfInt (z : Int) : pyFloat? (strOfInt z) = some ((z : ℚ)) := by
  cases z with
  | ofNat n =>
    obtain ⟨hne, hdig, hval⟩ := natChars_spec n
    have hl : (strOfInt (Int.ofNat n)).toList = natChars n := rfl
    rw [pyFloat?, hl]
    rcases hc : natChars n with _ | ⟨c, cs⟩
    · exact absurd hc hne
    · have hcdig : c.isDigit = true := hdig c (hc ▸ List.mem_cons_self c cs)
      have hcnd : c ≠ '-' := by
        intro he
        rw [he] at hcdig
        exact absurd hcdig (by decide)
      have hcnp : c ≠ '+' := by
        intro he
        rw [he] at hcdig
        exact absurd hcdig (by decide)
      split
      · next rest heq =>
        injection heq with h1 _
        exact absurd h1 hcnd
      · next rest heq =>
        injection heq with h1 _
        exact absurd h1 hcnp
      · rw [← hc, parseUnsignedQ_digits (natChars n) hne hdig, hval]
        norm_cast
  | negSucc m =>
    obtain ⟨hne, hdig, hval⟩ := natChars_spec (m + 1)
    have hl : pyFloat? (strOfInt (Int.negSucc m)) =
        (parseUnsignedQ (natChars (m + 1))).map Neg.neg := rfl
    rw [hl, parseUnsignedQ_digits (natChars (m + 1)) hne hdig, hval]
    simp [Int.cast_negSucc]

theorem pyInt_intCast (z : ℤ) : pyInt ((z : ℚ)) = z := by
  rw [pyInt, Rat.num_intCast, Rat.den_intCast]
  exact Int.tdiv_one z

theorem pyInt_cast_eq_iff (q : ℚ) : ((pyInt q : ℤ) : ℚ) = q ↔ q.den = 1 := by
  constructor
  · intro h
    rw [← h]
    exact Rat.den_intCast _
  · intro hden
    have hq : ((q.num : ℤ) : ℚ) = q := (Rat.den_eq_one_iff q).mp hden
    rw [pyInt, hden]
    simpa [Int.tdiv_one] using hq

/-! ### Inversion of the header mappers -/

theorem buildFiles_inv_ok (basenames dirnames : List String)
    (dirindexes : List Nat) (files : List FileEntry)
    (h : buildFiles basenames dirnames dirindexes = .ok files) :
    ∃ fs, (basenames.zip dirindexes).mapM (fun entry =>
        match dirnames.get? entry.2 with
        | some dirname =>
          Except.ok ({ ftype := "file", name := some (dirname ++ entry.1) } : FileEntry)
        | none => Except.error "IndexError: list index out of range") = .ok fs ∧
      files = fs ++ dirnames.map (fun dirname =>
        ({ ftype := "dir", name := some dirname } : FileEntry)) := by
  unfold buildFiles at h
  rcases hm : (basenames.zip dirindexes).mapM (fun entry =>
      match dirnames.get? entry.2 with
      | some dirname =>
        Except.ok ({ ftype := "file", name := some (dirname ++ entry.1) } : FileEntry)
      | none => Except.error "IndexError: list index out of range") with e | fs <;>
    rw [hm] at h
  · exact Except.noConfusion h
  · refine ⟨fs, hm, ?_⟩
    injection h with h1
    exact h1.symm

theorem except_bind_ok_inv {ε α β : Type} (x : Except ε α) (f : α → Except ε β)
    (b : β) (h : x >>= f = .ok b) : ∃ a, x = .ok a ∧ f a = .ok b := by
  cases x with
  | error e => exact Except.noConfusion h
  | ok a => exact ⟨a, rfl, h⟩

/-- Full inversion of `header_to_primary`: success is equivalent to the
success of the three dependency folds and of the manifest construction,
and determines every field of the produced record. -/
theorem header_to_primary_iff (header : Header) (sha256 : String) (mtime : ℚ)
    (location : String) (x : Nerv × Package) :
    header_to_primary header sha256 mtime location = .ok x ↔
    ∃ pd rd od fl,
      (zip3 header.PROVIDENAME header.PROVIDEVERSION header.PROVIDEFLAGS).foldlM
        addProvides [] = .ok pd ∧
      (zip3 header.REQUIRENAME header.REQUIREVERSION header.REQUIREFLAGS).foldlM
        addRequires [] = .ok rd ∧
      (zip3 header.OBSOLETENAME header.OBSOLETEVERSION header.OBSOLETEFLAGS).foldlM
        addObsoletes [] = .ok od ∧
      buildFiles header.BASENAMES header.DIRNAMES header.DIRINDEXES = .ok fl ∧
      x = (⟨some header.NAME, header.EPOCH, header.RELEASE, some header.VERSION⟩,
        ⟨some sha256, some header.NAME, some header.ARCH,
          ⟨some header.VERSION, header.RELEASE, header.EPOCH⟩,
          some header.SUMMARY, some header.DESCRIPTION, header.PACKAGER,
          some header.URL, some (strOfInt (pyInt mtime)), some header.BUILDTIME,
          some location,
          ⟨header.LICENSE, header.VENDOR, header.GROUP, header.BUILDHOST,
            header.SOURCERPM, none, none, pd, rd, od, fl⟩⟩) := by
  constructor
  · intro h
    unfold header_to_primary at h
    obtain ⟨pd, hp, h⟩ := except_bind_ok_inv _ _ _ h
    obtain ⟨rd, hr, h⟩ := except_bind_ok_inv _ _ _ h
    obtain ⟨od, ho, h⟩ := except_bind_ok_inv _ _ _ h
    obtain ⟨fl, hf, h⟩ := except_bind_ok_inv _ _ _ h
    injection h with h1
    exact ⟨pd, rd, od, fl, hp, hr, ho, hf, h1.symm⟩
  · rintro ⟨pd, rd, od, fl, hp, hr, ho, hf, hx⟩
    subst hx
    unfold header_to_primary
    simp only [hp, hr, ho, hf]
    rfl

/-- Full inversion of `header_to_filelists`. -/
theorem header_to_filelists_iff (header : Header) (sha256 : String)
    (x : Nerv × FPackage) :
    header_to_filelists header sha256 = .ok x ↔
    ∃ fl, buildFiles header.BASENAMES header.DIRNAMES header.DIRINDEXES = .ok fl ∧
      x = (⟨some header.NAME, header.EPOCH, header.RELEASE, some header.VERSION⟩,
        ⟨some sha256, some header.NAME, some header.ARCH,
          ⟨some header.VERSION, header.RELEASE, header.EPOCH⟩, fl⟩) := by
  constructor
  · intro h
    unfold header_to_filelists at h
    obtain ⟨fl, hf, h⟩ := except_bind_ok_inv _ _ _ h
    injection h with h1
    exact ⟨fl, hf, h1.symm⟩
  · rintro ⟨fl, hf, hx⟩
    subst hx
    unfold header_to_filelists
    simp only [hf]
    rfl

/-- **C10**: the primary record stores the supplied modification time as
the decimal text of its truncation, `str(int(mtime))`; the number
recovered from that text is the truncation, which equals the original
mtime iff the mtime is integral; for a non-integral mtime the recovered
`(location, file_time)` pair differs from every `(path, mtime)` pair. -/
theorem claim_c10_file_time (header : Header) (sha256 : String) (m : ℚ)
    (location : String) (nv : Nerv) (pkg : Package)
    (h : header_to_primary header sha256 m location = .ok (nv, pkg)) :
    pkg.file_time = some (strOfInt (pyInt m)) ∧
    pyFloat? (strOfInt (pyInt m)) = some ((pyInt m : ℚ)) ∧
    (((pyInt m : ℚ)) = m ↔ m.den = 1) ∧
    (m.den ≠ 1 → ∀ p : String,
      (pkg.location, ((pyInt m : ℚ))) ≠ ((some p : Option String), m)) := by
  obtain ⟨pd, rd, od, fl, _, _, _, _, hx⟩ := (header_to_primary_iff _ _ _ _ _).mp h
  have hpkg : pkg = _ := congrArg Prod.snd hx
  refine ⟨by rw [hpkg], pyFloat_strOfInt _, pyInt_cast_eq_iff m, ?_⟩
  intro hden p hcontra
  have h2 : ((pyInt m : ℚ)) = m := congrArg Prod.snd hcontra
  exact hden ((pyInt_cast_eq_iff m).mp h2)

/-- Witness for C10 at the non-integral mtime `1/2`. -/
theorem claim_c10_witness :
    pyFloat? (strOfInt (pyInt ((1 : ℚ)/2))) = some ((pyInt ((1 : ℚ)/2) : ℚ)) ∧
    (((pyInt ((1 : ℚ)/2) : ℚ)) = (1 : ℚ)/2 ↔ ((1 : ℚ)/2).den = 1) := by
  have h := claim_c10_file_time (plainHeader "p" "a" "1" none none) "sha"
    ((1 : ℚ)/2) "a.rpm"
    ⟨some "p", none, none, some "1"⟩
    ⟨some "sha", some "p", some "a", ⟨some "1", none, none⟩, some "sum",
     some "desc", none, some "url", some (strOfInt (pyInt ((1 : ℚ)/2))),
     some "10", some "a.rpm", ⟨none, none, none, none, none, none, none, [], [], [], []⟩⟩
    (by rfl)
  exact ⟨h.2.1, h.2.2.1⟩

/-- Membership characterization of the requires fold: everything in the
resulting dictionary was already in the accumulator or is the processed
form of a zipped entry whose flags have the rpmlib bit clear. -/
theorem foldlM_addRequires_mem (l : List (String × String × Nat)) :
    ∀ (d d' : List (Nerv × ReqEntry)), l.foldlM addRequires d = .ok d' →
    ∀ kv ∈ d', kv ∈ d ∨ ∃ e ∈ l, e.2.2 &&& RPMSENSE_RPMLIB = 0 ∧
      ∃ t, parse_ver_str e.2.1 = .ok t ∧
        kv = (⟨some e.1, t.1, t.2.2, t.2.1⟩,
              ⟨some e.1, t.1, t.2.2, t.2.1, flags_to_str e.2.2,
               if e.2.2 &&& 4352 ≠ 0 then some "1" else none⟩) := by
  induction l with
  | nil =>
    intro d d' h kv hm
    rw [List.foldlM_nil] at h
    injection h with h1
    exact Or.inl (h1 ▸ hm)
  | cons e rest ih =>
    intro d d' h kv hm
    rw [List.foldlM_cons] at h
    obtain ⟨d1, h1, h2⟩ := except_bind_ok_inv _ _ _ h
    unfold addRequires at h1
    obtain ⟨t, hpt, h1⟩ := except_bind_ok_inv _ _ _ h1
    by_cases hskip : e.2.2 &&& RPMSENSE_RPMLIB ≠ 0
    · rw [if_pos hskip] at h1
      injection h1 with h1
      rcases ih d1 d' h2 kv hm with hin | ⟨e', he', hc, t', ht', hkv⟩
      · exact Or.inl (h1 ▸ hin)
      · exact Or.inr ⟨e', List.mem_cons_of_mem e he', hc, t', ht', hkv⟩
    · rw [if_neg hskip] at h1
      injection h1 with h1
      rcases ih d1 d' h2 kv hm with hin | ⟨e', he', hc, t', ht', hkv⟩
      · rcases mem_dinsert _ _ _ _ (h1 ▸ hin) with hnew | hold
        · refine Or.inr ⟨e, List.mem_cons_self e rest, by omega, t, hpt, ?_⟩
          rw [hnew]
        · exact Or.inl hold
      · exact Or.inr ⟨e', List.mem_cons_of_mem e he', hc, t', ht', hkv⟩

/-- **C3**: a requires entry whose flags carry the internal-only (rpmlib)
bit never appears in the requires mapping of the produced primary record:
every binding of that mapping is the processed form of a requires entry
whose flags have the rpmlib bit clear, whatever its name and version. -/
theorem claim_c3_rpmlib_filtered (header : Header) (sha256 : String) (m : ℚ)
    (location : String) (nv : Nerv) (pkg : Package)
    (h : header_to_primary header sha256 m location = .ok (nv, pkg)) :
    ∀ kv ∈ pkg.format.requires,
      ∃ e ∈ zip3 header.REQUIRENAME header.REQUIREVERSION header.REQUIREFLAGS,
        e.2.2 &&& RPMSENSE_RPMLIB = 0 ∧
        ∃ t, parse_ver_str e.2.1 = .ok t ∧
          kv = (⟨some e.1, t.1, t.2.2, t.2.1⟩,
                ⟨some e.1, t.1, t.2.2, t.2.1, flags_to_str e.2.2,
                 if e.2.2 &&& 4352 ≠ 0 then some "1" else none⟩) := by
  intro kv hm
  obtain ⟨pd, rd, od, fl, _, hr, _, _, hx⟩ := (header_to_primary_iff _ _ _ _ _).mp h
  have hpkg : pkg = _ := congrArg Prod.snd hx
  have hreq : pkg.format.requires = rd := by rw [hpkg]
  rcases foldlM_addRequires_mem _ [] rd hr kv (hreq ▸ hm) with hin | hsrc
  · exact absurd hin (List.not_mem_nil kv)
  · exact hsrc

/-- **C7**: every requires entry surviving the internal-only filter has
its prerequisite marker set to `"1"` iff its flags masked with the fixed
sentinel `4352` are non-zero, and null otherwise. -/
theorem claim_c7_prerequisite_marker (header : Header) (sha256 : String)
    (m : ℚ) (location : String) (nv : Nerv) (pkg : Package)
    (h : header_to_primary header sha256 m location = .ok (nv, pkg)) :
    ∀ kv ∈ pkg.format.requires,
      ∃ e ∈ zip3 header.REQUIRENAME header.REQUIREVERSION header.REQUIREFLAGS,
        e.2.2 &&& RPMSENSE_RPMLIB = 0 ∧
        (kv.2.pre = some "1" ↔ e.2.2 &&& 4352 ≠ 0) ∧
        (kv.2.pre = none ↔ e.2.2 &&& 4352 = 0) := by
  intro kv hm
  obtain ⟨pd, rd, od, fl, _, hr, _, _, hx⟩ := (header_to_primary_iff _ _ _ _ _).mp h
  have hpkg : pkg = _ := congrArg Prod.snd hx
  have hreq : pkg.format.requires = rd := by rw [hpkg]
  rcases foldlM_addRequires_mem _ [] rd hr kv (hreq ▸ hm) with hin | ⟨e, he, hc, t, ht, hkv⟩
  · exact absurd hin (List.not_mem_nil kv)
  · subst hkv
    refine ⟨e, he, hc, ?_, ?_⟩
    · by_cases hc4 : e.2.2 &&& 4352 ≠ 0
      · simp [hc4]
      · push_neg at hc4
        simp [hc4]
    · by_cases hc4 : e.2.2 &&& 4352 ≠ 0
      · simp [hc4]
      · push_neg at hc4
        simp [hc4]

/-- Witness for C3: the surviving binding of `requiresHeader` traces back
to its rpmlib-clear entry. -/
theorem claim_c3_witness :
    ∃ e ∈ zip3 requiresHeader.REQUIRENAME requiresHeader.REQUIREVERSION
        requiresHeader.REQUIREFLAGS,
      e.2.2 &&& RPMSENSE_RPMLIB = 0 ∧
      ∃ t, parse_ver_str e.2.1 = .ok t ∧
        ((⟨some "a", some "1", some "3", some "2"⟩ : Nerv),
         (⟨some "a", some "1", some "3", some "2", some "EQ", some "1"⟩ : ReqEntry)) =
          (⟨some e.1, t.1, t.2.2, t.2.1⟩,
           ⟨some e.1, t.1, t.2.2, t.2.1, flags_to_str e.2.2,
            if e.2.2 &&& 4352 ≠ 0 then some "1" else none⟩) :=
  claim_c3_rpmlib_filtered requiresHeader "sha" 100 "a.rpm"
    ⟨some "pkg", none, some "1", some "1.0"⟩
    ⟨some "sha", some "pkg", some "x86_64", ⟨some "1.0", some "1", none⟩,
     some "sum", some "desc", none, some "url", some (strOfInt (pyInt 100)),
     some "10", some "a.rpm",
     ⟨none, none, none, none, none, none, none, [],
      [(⟨some "a", some "1", some "3", some "2"⟩,
        ⟨some "a", some "1", some "3", some "2", some "EQ", some "1"⟩)], [], []⟩⟩
    (by rfl)
    (⟨some "a", some "1", some "3", some "2"⟩,
     ⟨some "a", some "1", some "3", some "2", some "EQ", some "1"⟩)
    (by decide)

/-- Witness for C7: the surviving binding of `requiresHeader` has its
prerequisite marker set, matching its `4352`-masked flags. -/
theorem claim_c7_witness :
    ∃ e ∈ zip3 requiresHeader.REQUIRENAME requiresHeader.REQUIREVERSION
        requiresHeader.REQUIREFLAGS,
      e.2.2 &&& RPMSENSE_RPMLIB = 0 ∧
      (((⟨some "a", some "1", some "3", some "2"⟩ : Nerv),
        (⟨some "a", some "1", some "3", some "2", some "EQ", some "1"⟩ : ReqEntry)).2.pre
          = some "1" ↔ e.2.2 &&& 4352 ≠ 0) ∧
      (((⟨some "a", some "1", some "3", some "2"⟩ : Nerv),
        (⟨some "a", some "1", some "3", some "2", some "EQ", some "1"⟩ : ReqEntry)).2.pre
          = none ↔ e.2.2 &&& 4352 = 0) :=
  claim_c7_prerequisite_marker requiresHeader "sha" 100 "a.rpm"
    ⟨some "pkg", none, some "1", some "1.0"⟩
    ⟨some "sha", some "pkg", some "x86_64", ⟨some "1.0", some "1", none⟩,
     some "sum", some "desc", none, some "url", some (strOfInt (pyInt 100)),
     some "10", some "a.rpm",
     ⟨none, none, none, none, none, none, none, [],
      [(⟨some "a", some "1", some "3", some "2"⟩,
        ⟨some "a", some "1", some "3", some "2", some "EQ", some "1"⟩)], [], []⟩⟩
    (by rfl)
    (⟨some "a", some "1", some "3", some "2"⟩,
     ⟨some "a", some "1", some "3", some "2", some "EQ", some "1"⟩)
    (by decide)

/-- **C5**: for any header with `BASENAMES = ['foo']`,
`DIRNAMES = ['/usr/bin/']`, `DIRINDEXES = [0]` and empty dependency
arrays, the two mappers succeed, produce the identical identity tuple,
and each manifest is exactly a file entry `/usr/bin/foo` followed by a
directory entry `/usr/bin/`. -/
theorem claim_c5_roundtrip (header : Header) (sha256 : String) (m : ℚ)
    (location : String)
    (hb : header.BASENAMES = ["foo"]) (hd : header.DIRNAMES = ["/usr/bin/"])
    (hi : header.DIRINDEXES = [0])
    (hp1 : header.PROVIDENAME = []) (hp2 : header.PROVIDEVERSION = [])
    (hp3 : header.PROVIDEFLAGS = [])
    (hr1 : header.REQUIRENAME = []) (hr2 : header.REQUIREVERSION = [])
    (hr3 : header.REQUIREFLAGS = [])
    (ho1 : header.OBSOLETENAME = []) (ho2 : header.OBSOLETEVERSION = [])
    (ho3 : header.OBSOLETEFLAGS = []) :
    ∃ fx px, header_to_filelists header sha256 = .ok fx ∧
      header_to_primary header sha256 m location = .ok px ∧
      fx.1 = px.1 ∧
      fx.2.files = [⟨"file", some "/usr/bin/foo"⟩, ⟨"dir", some "/usr/bin/"⟩] ∧
      px.2.format.files = [⟨"file", some "/usr/bin/foo"⟩, ⟨"dir", some "/usr/bin/"⟩] := by
  refine ⟨(⟨some header.NAME, header.EPOCH, header.RELEASE, some header.VERSION⟩,
      ⟨some sha256, some header.NAME, some header.ARCH,
       ⟨some header.VERSION, header.RELEASE, header.EPOCH⟩,
       [⟨"file", some "/usr/bin/foo"⟩, ⟨"dir", some "/usr/bin/"⟩]⟩),
    (⟨some header.NAME, header.EPOCH, header.RELEASE, some header.VERSION⟩,
      ⟨some sha256, some header.NAME, some header.ARCH,
       ⟨some header.VERSION, header.RELEASE, header.EPOCH⟩,
       some header.SUMMARY, some header.DESCRIPTION, header.PACKAGER,
       some header.URL, some (strOfInt (pyInt m)), some header.BUILDTIME,
       some location,
       ⟨header.LICENSE, header.VENDOR, header.GROUP, header.BUILDHOST,
        header.SOURCERPM, none, none, [], [],
        [], [⟨"file", some "/usr/bin/foo"⟩, ⟨"dir", some "/usr/bin/"⟩]⟩⟩),
    ?_, ?_, rfl, rfl, rfl⟩
  · exact (header_to_filelists_iff _ _ _).mpr
      ⟨[⟨"file", some "/usr/bin/foo"⟩, ⟨"dir", some "/usr/bin/"⟩],
       by rw [hb, hd, hi]; rfl, rfl⟩
  · exact (header_to_primary_iff _ _ _ _ _).mpr
      ⟨[], [], [], [⟨"file", some "/usr/bin/foo"⟩, ⟨"dir", some "/usr/bin/"⟩],
       by rw [hp1, hp2, hp3]; rfl,
       by rw [hr1, hr2, hr3]; rfl,
       by rw [ho1, ho2, ho3]; rfl,
       by rw [hb, hd, hi]; rfl, rfl⟩

/-- Witness for C5 at the concrete `roundtripHeader`. -/
theorem claim_c5_witness :
    ∃ fx px, header_to_filelists roundtripHeader "sha" = .ok fx ∧
      header_to_primary roundtripHeader "sha" 100 "a.rpm" = .ok px ∧
      fx.1 = px.1 ∧
      fx.2.files = [⟨"file", some "/usr/bin/foo"⟩, ⟨"dir", some "/usr/bin/"⟩] ∧
      px.2.format.files = [⟨"file", some "/usr/bin/foo"⟩, ⟨"dir", some "/usr/bin/"⟩] :=
  claim_c5_roundtrip roundtripHeader "sha" 100 "a.rpm"
    rfl rfl rfl rfl rfl rfl rfl rfl rfl rfl rfl rfl

/-! ### Success and failure of the manifest construction -/

theorem filesMapM_ok (dirnames : List String) :
    ∀ l : List (String × Nat), (∀ e ∈ l, e.2 < dirnames.length) →
    ∃ fs, l.mapM (fun entry =>
      match dirnames.get? entry.2 with
      | some dirname =>
        Except.ok ({ ftype := "file", name := some (dirname ++ entry.1) } : FileEntry)
      | none => Except.error "IndexError: list index out of range") = .ok fs := by
  intro l
  induction l with
  | nil => intro _; exact ⟨[], rfl⟩
  | cons e rest ih =>
    intro h
    obtain ⟨fs, hfs⟩ := ih (fun x hx => h x (List.mem_cons_of_mem e hx))
    have he := h e (List.mem_cons_self e rest)
    rcases hg : dirnames.get? e.2 with _ | dirname
    · rw [List.get?_eq_none] at hg
      omega
    · refine ⟨{ ftype := "file", name := some (dirname ++ e.1) } :: fs, ?_⟩
      rw [List.mapM_cons]
      simp only [hg, hfs]
      rfl

theorem filesMapM_ok_ranges (dirnames : List String) :
    ∀ (l : List (String × Nat)) (fs : List FileEntry),
    l.mapM (fun entry =>
      match dirnames.get? entry.2 with
      | some dirname =>
        Except.ok ({ ftype := "file", name := some (dirname ++ entry.1) } : FileEntry)
      | none => Except.error "IndexError: list index out of range") = .ok fs →
    ∀ e ∈ l, e.2 < dirnames.length := by
  intro l
  induction l with
  | nil => intro fs _ e he; exact absurd he (List.not_mem_nil e)
  | cons x rest ih =>
    intro fs h e he
    rw [List.mapM_cons] at h
    obtain ⟨b, hb, h⟩ := except_bind_ok_inv _ _ _ h
    obtain ⟨bs, hbs, _⟩ := except_bind_ok_inv _ _ _ h
    rcases List.mem_cons.mp he with he1 | he2
    · subst he1
      rcases hg : dirnames.get? e.2 with _ | dirname
      · rw [hg] at hb
        exact Except.noConfusion hb
      · have : dirnames.get? e.2 ≠ none := by rw [hg]; exact Option.noConfusion
        rcases Nat.lt_or_ge e.2 dirnames.length with hlt | hge
        · exact hlt
        · exact absurd (List.get?_eq_none.mpr hge) this
    · exact ih bs hbs e he2

theorem buildFiles_ok_of (basenames dirnames : List String)
    (dirindexes : List Nat)
    (h : ∀ e ∈ basenames.zip dirindexes, e.2 < dirnames.length) :
    ∃ fl, buildFiles basenames dirnames dirindexes = .ok fl := by
  obtain ⟨fs, hfs⟩ := filesMapM_ok dirnames (basenames.zip dirindexes) h
  refine ⟨fs ++ dirnames.map (fun dirname =>
    ({ ftype := "dir", name := some dirname } : FileEntry)), ?_⟩
  unfold buildFiles
  simp only [hfs]
  rfl

theorem buildFiles_error_of (basenames dirnames : List String)
    (dirindexes : List Nat)
    (h : ∃ e ∈ basenames.zip dirindexes, ¬ e.2 < dirnames.length) :
    ∃ msg, buildFiles basenames dirnames dirindexes = .error msg := by
  rcases hb : buildFiles basenames dirnames dirindexes with msg | fl
  · exact ⟨msg, rfl⟩
  · obtain ⟨fs, hfs, _⟩ := buildFiles_inv_ok basenames dirnames dirindexes fl hb
    obtain ⟨e, he, hlt⟩ := h
    exact absurd (filesMapM_ok_ranges dirnames _ fs hfs e he) hlt

/-! ### Success of the dependency folds -/

theorem foldlM_addProvides_ok (l : List (String × String × Nat))
    (h : ∀ e ∈ l, ∃ t, parse_ver_str e.2.1 = .ok t) :
    ∀ d, ∃ d', l.foldlM addProvides d = .ok d' := by
  induction l with
  | nil => intro d; exact ⟨d, rfl⟩
  | cons e rest ih =>
    intro d
    obtain ⟨t, ht⟩ := h e (List.mem_cons_self e rest)
    obtain ⟨d', hd'⟩ := ih (fun x hx => h x (List.mem_cons_of_mem e hx))
      (dinsert d ⟨some e.1, t.1, t.2.2, t.2.1⟩
        ⟨some e.1, t.1, t.2.2, t.2.1, flags_to_str e.2.2⟩)
    refine ⟨d', ?_⟩
    rw [List.foldlM_cons]
    unfold addProvides
    simp only [ht]
    exact hd'

theorem foldlM_addObsoletes_ok (l : List (String × String × Nat))
    (h : ∀ e ∈ l, ∃ t, parse_ver_str e.2.1 = .ok t) :
    ∀ d, ∃ d', l.foldlM addObsoletes d = .ok d' := by
  induction l with
  | nil => intro d; exact ⟨d, rfl⟩
  | cons e rest ih =>
    intro d
    obtain ⟨t, ht⟩ := h e (List.mem_cons_self e rest)
    obtain ⟨d', hd'⟩ := ih (fun x hx => h x (List.mem_cons_of_mem e hx))
      (dinsert d ⟨some e.1, t.1, t.2.2, t.2.1⟩
        ⟨some e.1, t.1, t.2.2, t.2.1, flags_to_str e.2.2⟩)
    refine ⟨d', ?_⟩
    rw [List.foldlM_cons]
    unfold addObsoletes
    simp only [ht]
    exact hd'

theorem foldlM_addRequires_ok (l : List (String × String × Nat))
    (h : ∀ e ∈ l, ∃ t, parse_ver_str e.2.1 = .ok t) :
    ∀ d, ∃ d', l.foldlM addRequires d = .ok d' := by
  induction l with
  | nil => intro d; exact ⟨d, rfl⟩
  | cons e rest ih =>
    intro d
    obtain ⟨t, ht⟩ := h e (List.mem_cons_self e rest)
    have ihr := ih (fun x hx => h x (List.mem_cons_of_mem e hx))
    by_cases hskip : e.2.2 &&& RPMSENSE_RPMLIB ≠ 0
    · obtain ⟨d', hd'⟩ := ihr d
      refine ⟨d', ?_⟩
      rw [List.foldlM_cons]
      unfold addRequires
      simp only [ht, if_pos hskip]
      exact hd'
    · obtain ⟨d', hd'⟩ := ihr (dinsert d ⟨some e.1, t.1, t.2.2, t.2.1⟩
        ⟨some e.1, t.1, t.2.2, t.2.1, flags_to_str e.2.2,
         if e.2.2 &&& 4352 ≠ 0 then some "1" else none⟩)
      refine ⟨d', ?_⟩
      rw [List.foldlM_cons]
      unfold addRequires
      simp only [ht, if_neg hskip]
      exact hd'

/-- Counterexample to C9 as stated: `badVersionHeader` has every zipped
directory index in range, yet `header_to_primary` fails (its provides
version text is malformed); and `unusedIndexHeader` contains an
out-of-range directory index, yet manifest construction succeeds, because
the index is paired with no basename. -/
theorem claim_c9_counterexample :
    ((∀ e ∈ badVersionHeader.BASENAMES.zip badVersionHeader.DIRINDEXES,
        e.2 < badVersionHeader.DIRNAMES.length) ∧
      ∃ msg, header_to_primary badVersionHeader "sha" 100 "a.rpm" = .error msg) ∧
    ((∃ i ∈ unusedIndexHeader.DIRINDEXES,
        ¬ i < unusedIndexHeader.DIRNAMES.length) ∧
      ∃ fx, header_to_filelists unusedIndexHeader "sha" = .ok fx) := by
  refine ⟨⟨by decide, ⟨"Cant parse version: " ++ "x", by rfl⟩⟩,
    ⟨⟨7, by decide⟩, ?_⟩⟩
  exact ⟨(⟨some "pkg", none, some "1", some "1.0"⟩,
    ⟨some "sha", some "pkg", some "x86_64", ⟨some "1.0", some "1", none⟩, []⟩),
    by rfl⟩

/-- **C9 (amended)**: the manifest construction indexes `DIRNAMES` with
each raw directory index without a bounds check, but only for indexes
zipped against a basename.  When every zipped index is in range
`header_to_filelists` succeeds, and `header_to_primary` succeeds provided
additionally every dependency version text parses (its other failure
source); the out-of-range branch of the lookup is then unreachable.  A
header with an out-of-range zipped index makes both mappers fail. -/
theorem claim_c9_amended (header : Header) (sha256 : String) (m : ℚ)
    (location : String) :
    ((∀ e ∈ header.BASENAMES.zip header.DIRINDEXES,
        e.2 < header.DIRNAMES.length) →
      ∃ fx, header_to_filelists header sha256 = .ok fx) ∧
    ((∀ e ∈ header.BASENAMES.zip header.DIRINDEXES,
        e.2 < header.DIRNAMES.length) →
      (∀ e ∈ zip3 header.PROVIDENAME header.PROVIDEVERSION header.PROVIDEFLAGS,
        ∃ t, parse_ver_str e.2.1 = .ok t) →
      (∀ e ∈ zip3 header.REQUIRENAME header.REQUIREVERSION header.REQUIREFLAGS,
        ∃ t, parse_ver_str e.2.1 = .ok t) →
      (∀ e ∈ zip3 header.OBSOLETENAME header.OBSOLETEVERSION header.OBSOLETEFLAGS,
        ∃ t, parse_ver_str e.2.1 = .ok t) →
      ∃ px, header_to_primary header sha256 m location = .ok px) ∧
    ((∃ e ∈ header.BASENAMES.zip header.DIRINDEXES,
        ¬ e.2 < header.DIRNAMES.length) →
      (∃ msg, header_to_filelists header sha256 = .error msg) ∧
      (∃ msg, header_to_primary header sha256 m location = .error msg)) := by
  refine ⟨?_, ?_, ?_⟩
  · intro hidx
    obtain ⟨fl, hfl⟩ := buildFiles_ok_of _ _ _ hidx
    exact ⟨_, (header_to_filelists_iff _ _ _).mpr ⟨fl, hfl, rfl⟩⟩
  · intro hidx hp hr ho
    obtain ⟨fl, hfl⟩ := buildFiles_ok_of _ _ _ hidx
    obtain ⟨pd, hpd⟩ := foldlM_addProvides_ok _ hp []
    obtain ⟨rd, hrd⟩ := foldlM_addRequires_ok _ hr []
    obtain ⟨od, hod⟩ := foldlM_addObsoletes_ok _ ho []
    exact ⟨_, (header_to_primary_iff _ _ _ _ _).mpr
      ⟨pd, rd, od, fl, hpd, hrd, hod, hfl, rfl⟩⟩
  · intro hbad
    constructor
    · rcases hf : header_to_filelists header sha256 with msg | fx
      · exact ⟨msg, rfl⟩
      · obtain ⟨fl, hfl, _⟩ := (header_to_filelists_iff _ _ _).mp hf
        obtain ⟨fs, hfs, _⟩ := buildFiles_inv_ok _ _ _ _ hfl
        obtain ⟨e, he, hlt⟩ := hbad
        exact absurd (filesMapM_ok_ranges _ _ _ hfs e he) hlt
    · rcases hf : header_to_primary header sha256 m location with msg | px
      · exact ⟨msg, rfl⟩
      · obtain ⟨pd, rd, od, fl, _, _, _, hfl, _⟩ :=
          (header_to_primary_iff _ _ _ _ _).mp hf
        obtain ⟨fs, hfs, _⟩ := buildFiles_inv_ok _ _ _ _ hfl
        obtain ⟨e, he, hlt⟩ := hbad
        exact absurd (filesMapM_ok_ranges _ _ _ hfs e he) hlt

/-- Witness for the amended C9: `badIndexHeader` (index 7 into a
one-entry directory table, zipped against a basename) makes both mappers
fail. -/
theorem claim_c9_witness :
    (∃ msg, header_to_filelists badIndexHeader "sha" = .error msg) ∧
    (∃ msg, header_to_primary badIndexHeader "sha" 100 "a.rpm" = .error msg) :=
  (claim_c9_amended badIndexHeader "sha" 100 "a.rpm").2.2
    ⟨("foo", 7), by decide, by decide⟩

/-- Counterexample to C6 as stated: when the download step fails, the
ingestion iteration propagates the error without removing the scratch
directory (the source has no try/finally around the scratch lifetime). -/
theorem claim_c6_counterexample :
    (ingest_one ⟨.error "download failed", .error "x", .error "y"⟩
      100 "a.rpm").2 = false ∧
    ∃ msg, (ingest_one ⟨.error "download failed", .error "x", .error "y"⟩
      100 "a.rpm").1 = .error msg :=
  ⟨rfl, ⟨"download failed", rfl⟩⟩

/-- **C6 (amended)**: the scratch directory of one ingestion iteration is
removed iff the download, header-parse and checksum steps all succeed; a
failure in any of those steps propagates its error with the scratch
directory left in place (removal happens before record derivation on the
success path). -/
theorem claim_c6_amended (ops : IngestOps) (m : ℚ) (file_path : String) :
    ((ingest_one ops m file_path).2 = true ↔
      (∃ u, ops.download = .ok u) ∧ (∃ h, ops.parse_file = .ok h) ∧
      (∃ s, ops.checksum = .ok s)) ∧
    (∀ msg, (ops.download = .error msg ∨
        ((∃ u, ops.download = .ok u) ∧ ops.parse_file = .error msg) ∨
        ((∃ u, ops.download = .ok u) ∧ (∃ h, ops.parse_file = .ok h) ∧
          ops.checksum = .error msg)) →
      (ingest_one ops m file_path).1 = .error msg ∧
      (ingest_one ops m file_path).2 = false) := by
  refine ⟨?_, ?_⟩
  · rcases hd : ops.download with ed | u
    · simp [ingest_one, hd]
    · rcases hp : ops.parse_file with ep | hh
      · simp [ingest_one, hd, hp]
      · rcases hc : ops.checksum with ec | s
        · simp [ingest_one, hd, hp, hc]
        · rcases hhp : header_to_primary hh s m file_path with e2 | np
          · simp [ingest_one, hd, hp, hc, hhp]
          · rcases hhf : header_to_filelists hh s with e3 | nf
            · simp [ingest_one, hd, hp, hc, hhp, hhf]
            · simp [ingest_one, hd, hp, hc, hhp, hhf]
  · intro msg hdisj
    rcases hdisj with hmsg | ⟨⟨u, hu⟩, hmsg⟩ | ⟨⟨u, hu⟩, ⟨hh, hph⟩, hmsg⟩
    · constructor <;> simp [ingest_one, hmsg]
    · constructor <;> simp [ingest_one, hu, hmsg]
    · constructor <;> simp [ingest_one, hu, hph, hmsg]

/-- Witness for the amended C6 at a failing download. -/
theorem claim_c6_witness :
    (ingest_one ⟨.error "net down", .error "x", .error "y"⟩
      100 "a.rpm").1 = .error "net down" ∧
    (ingest_one ⟨.error "net down", .error "x", .error "y"⟩
      100 "a.rpm").2 = false :=
  (claim_c6_amended ⟨.error "net down", .error "x", .error "y"⟩
    100 "a.rpm").2 "net down" (Or.inl rfl)

/-- Evaluation of `parse_primary` on a root with one well-formed package
node: the package is accepted whatever its name text, including an empty
or absent one — no constructor-side validation occurs. -/
theorem parse_primary_sample (nm : Option String) :
    parse_primary (mkRoot [samplePkgNode nm]) =
      .ok [(⟨nm, some "0", some "2", some "1"⟩, samplePkg nm)] := rfl

/-- Counterexample to C8 as stated: a header with an empty `NAME` is
mapped to a filelists record (with identity name `""`) instead of being
rejected. -/
theorem claim_c8_counterexample :
    header_to_filelists (plainHeader "" "x86_64" "1.0" (some "1") none) "sha" =
      .ok (⟨some "", none, some "1", some "1.0"⟩,
        ⟨some "sha", some "", some "x86_64", ⟨some "1.0", some "1", none⟩, []⟩) :=
  rfl

/-- **C8 (amended)**: no record constructor validates the identity name:
a header with empty `NAME` (and well-formed manifest indexes) still
yields a filelists record whose identity name is the empty string, and
`parse_primary` accepts a package node with any name text, empty
included, reproducing it in the identity and the record. -/
theorem claim_c8_amended :
    (∀ (header : Header) (sha256 : String),
      (∀ e ∈ header.BASENAMES.zip header.DIRINDEXES,
        e.2 < header.DIRNAMES.length) →
      header.NAME = "" →
      ∃ fx, header_to_filelists header sha256 = .ok fx ∧
        fx.1.name = some "" ∧ fx.2.name = some "") ∧
    (∀ nm : Option String,
      ∃ nv pk, parse_primary (mkRoot [samplePkgNode nm]) = .ok [(nv, pk)] ∧
        nv.name = nm ∧ pk.name = nm) := by
  constructor
  · intro header sha256 hidx hname
    obtain ⟨fl, hfl⟩ := buildFiles_ok_of _ _ _ hidx
    refine ⟨_, (header_to_filelists_iff _ _ _).mpr ⟨fl, hfl, rfl⟩, ?_, ?_⟩ <;>
      simp [hname]
  · intro nm
    exact ⟨⟨nm, some "0", some "2", some "1"⟩, samplePkg nm,
      parse_primary_sample nm, rfl, rfl⟩

/-- Witness for the amended C8 at an empty header name and an empty
document name text. -/
theorem claim_c8_witness :
    (∃ fx, header_to_filelists (plainHeader "" "a" "1" none none) "sha" = .ok fx ∧
      fx.1.name = some "" ∧ fx.2.name = some "") ∧
    (∃ nv pk, parse_primary (mkRoot [samplePkgNode (some "")]) = .ok [(nv, pk)] ∧
      nv.name = some "" ∧ pk.name = some "") :=
  ⟨claim_c8_amended.1 (plainHeader "" "a" "1" none none) "sha" (by decide) rfl,
   claim_c8_amended.2 (some "")⟩

/-! ### parse_repomd: step lemmas and fold invariant -/

theorem repomdStep_no_type (st : Option RepomdRecord × Option RepomdRecord)
    (c : XmlNode) (h : attribGet c "type" = none) : repomdStep st c = .ok st := by
  unfold repomdStep
  rw [h]
  rfl

theorem repomdStep_typed (st : Option RepomdRecord × Option RepomdRecord)
    (c : XmlNode) (ty : String) (r : RepomdRecord)
    (h : attribGet c "type" = some ty) (hr : extractRepomd c = .ok r) :
    repomdStep st c =
      .ok (if ty = "filelists" then (some r, st.2)
        else if ty = "primary" then (st.1, some r) else st) := by
  unfold repomdStep
  rw [h, hr]
  by_cases h1 : ty = "filelists"
  · simp [h1]
  · by_cases h2 : ty = "primary"
    · simp [h1, h2]
    · simp [h1, h2]

theorem repomdStep_unrecognized (st : Option RepomdRecord × Option RepomdRecord)
    (c : XmlNode)
    (h : attribGet c "type" = none ∨
      ∃ ty r, attribGet c "type" = some ty ∧ ty ≠ "filelists" ∧
        ty ≠ "primary" ∧ extractRepomd c = .ok r) :
    repomdStep st c = .ok st := by
  rcases h with h | ⟨ty, r, hty, h1, h2, hr⟩
  · exact repomdStep_no_type st c h
  · rw [repomdStep_typed st c ty r hty hr]
    simp [h1, h2]

theorem repomd_fold_spec (children : List XmlNode) :
    ∀ st, (∀ c ∈ children, (attribGet c "type").isSome →
      ∃ r, extractRepomd c = .ok r) →
    ∃ res, children.foldlM repomdStep st = .ok res ∧
      ((∀ c ∈ children, attribGet c "type" ≠ some "filelists") → res.1 = st.1) ∧
      ((∀ c ∈ children, attribGet c "type" ≠ some "primary") → res.2 = st.2) := by
  induction children with
  | nil =>
    intro st _
    exact ⟨st, rfl, fun _ => rfl, fun _ => rfl⟩
  | cons c rest ih =>
    intro st h
    have hc := h c (List.mem_cons_self c rest)
    have hrest : ∀ x ∈ rest, (attribGet x "type").isSome →
        ∃ r, extractRepomd x = .ok r :=
      fun x hx => h x (List.mem_cons_of_mem c hx)
    rcases hty : attribGet c "type" with _ | ty
    · obtain ⟨res, hres, h1, h2⟩ := ih st hrest
      refine ⟨res, ?_, ?_, ?_⟩
      · rw [List.foldlM_cons, repomdStep_no_type st c hty]
        exact hres
      · intro hno
        exact h1 fun x hx => hno x (List.mem_cons_of_mem c hx)
      · intro hno
        exact h2 fun x hx => hno x (List.mem_cons_of_mem c hx)
    · obtain ⟨r, hr⟩ := hc (by rw [hty]; rfl)
      obtain ⟨res, hres, h1, h2⟩ := ih
        (if ty = "filelists" then (some r, st.2)
          else if ty = "primary" then (st.1, some r) else st) hrest
      refine ⟨res, ?_, ?_, ?_⟩
      · rw [List.foldlM_cons, repomdStep_typed st c ty r hty hr]
        exact hres
      · intro hno
        have hnf : ty ≠ "filelists" := by
          intro he
          exact hno c (List.mem_cons_self c rest) (he ▸ hty)
        rw [h1 fun x hx => hno x (List.mem_cons_of_mem c hx)]
        by_cases h2' : ty = "primary"
        · simp [hnf, h2']
        · simp [hnf, h2']
      · intro hno
        have hnp : ty ≠ "primary" := by
          intro he
          exact hno c (List.mem_cons_self c rest) (he ▸ hty)
        rw [h2 fun x hx => hno x (List.mem_cons_of_mem c hx)]
        by_cases h1' : ty = "filelists"
        · simp [hnp, h1']
        · simp [hnp, h1']

/-- Counterexample to C4 as stated: a record of unrecognized type with a
`type` attribute but none of the required child fields makes
`parse_repomd` raise instead of being ignored, because field extraction
runs before the type is inspected. -/
theorem claim_c4_counterexample :
    parse_repomd (mkRoot [badTypedRecord]) =
      .error ("AttributeError: " ++ (repoNS ++ "checksum")) := rfl

/-- **C4 (amended)**: provided every record bearing a `type` attribute
carries the required child fields: a document with exactly one
`filelists`-typed and one `primary`-typed record yields both locators; a
document with no record of one recognized type yields `none` for that
slot without error; and records of unrecognized type (or without a `type`
attribute) are ignored without affecting the result.  An unrecognized
typed record missing a required child field raises instead. -/
theorem claim_c4_amended :
    (∀ f p rf rp, attribGet f "type" = some "filelists" →
      attribGet p "type" = some "primary" →
      extractRepomd f = .ok rf → extractRepomd p = .ok rp →
      parse_repomd (mkRoot [f, p]) = .ok (some rf, some rp)) ∧
    (∀ children : List XmlNode,
      (∀ c ∈ children, (attribGet c "type").isSome →
        ∃ r, extractRepomd c = .ok r) →
      ∃ res, parse_repomd (mkRoot children) = .ok res ∧
        ((∀ c ∈ children, attribGet c "type" ≠ some "filelists") →
          res.1 = none) ∧
        ((∀ c ∈ children, attribGet c "type" ≠ some "primary") →
          res.2 = none)) ∧
    (∀ (xs ys : List XmlNode) (u : XmlNode),
      (attribGet u "type" = none ∨
        ∃ ty r, attribGet u "type" = some ty ∧ ty ≠ "filelists" ∧
          ty ≠ "primary" ∧ extractRepomd u = .ok r) →
      parse_repomd (mkRoot (xs ++ u :: ys)) = parse_repomd (mkRoot (xs ++ ys))) := by
  refine ⟨?_, ?_, ?_⟩
  · intro f p rf rp hf hp hrf hrp
    unfold parse_repomd mkRoot
    show ([f, p].foldlM repomdStep (none, none)) = _
    rw [List.foldlM_cons, repomdStep_typed (none, none) f "filelists" rf hf hrf]
    simp only [if_pos rfl]
    show ([p].foldlM repomdStep (some rf, none)) = _
    rw [List.foldlM_cons, repomdStep_typed (some rf, none) p "primary" rp hp hrp]
    rfl
  · intro children h
    obtain ⟨res, hres, h1, h2⟩ := repomd_fold_spec children (none, none) h
    exact ⟨res, hres, h1, h2⟩
  · intro xs ys u hu
    unfold parse_repomd mkRoot
    show ((xs ++ u :: ys).foldlM repomdStep (none, none)) =
      ((xs ++ ys).foldlM repomdStep (none, none))
    rw [List.foldlM_append, List.foldlM_append]
    rcases hxs : xs.foldlM repomdStep (none, none) with e | st
    · rfl
    · show ((u :: ys).foldlM repomdStep st) = (ys.foldlM repomdStep st)
      rw [List.foldlM_cons, repomdStep_unrecognized st u hu]
      rfl

/-- Witness for the amended C4 at a two-record document plus an ignored
unrecognized record. -/
theorem claim_c4_witness :
    parse_repomd (mkRoot [rmRecord "filelists" "repodata/filelists.xml.gz",
        rmRecord "primary" "repodata/primary.xml.gz"]) =
      .ok (some ⟨some "ck", some "ock", some "1", some "2", some "3",
              "repodata/filelists.xml.gz"⟩,
           some ⟨some "ck", some "ock", some "1", some "2", some "3",
              "repodata/primary.xml.gz"⟩) :=
  claim_c4_amended.1 (rmRecord "filelists" "repodata/filelists.xml.gz")
    (rmRecord "primary" "repodata/primary.xml.gz") _ _ rfl rfl rfl rfl

theorem contains_eq_false_of_not_mem (l : List Char) (a : Char) (h : a ∉ l) :
    l.contains a = false := by
  simp [h]

/-- **C1**: the diff phase of `update_repo` computes the to-ingest set as
the set difference current-minus-recorded over `(path, mtime)` pairs,
where recorded ranges over the primary records' `(location, file_time)`
pairs and current over storage entries matching the `.rpm` pattern (for
newline-free paths, exactly those ending in `.rpm`).  A pair equal to a
recorded pair is never in the to-ingest set; a recorded path reported
with a fresh mtime is in the to-ingest set as an additional entry, the
recorded pairs being left unchanged by the diff. -/
theorem claim_c1_update_repo_diff (primary : List (Nerv × Package))
    (st : StorageState) (recorded : Finset (Option String × ℚ))
    (h : recorded_files primary = some recorded) :
    files_to_add primary st = some (existing_files st \ recorded) ∧
    (∀ (p : Option String) (m : ℚ), (p, m) ∈ existing_files st ↔
      ∃ path, p = some path ∧ path ∈ st.files ∧ matchesRpmExpr path = true ∧
        m = st.mtime path) ∧
    (∀ pr ∈ recorded, pr ∉ existing_files st \ recorded) ∧
    (∀ (path : String) (m m' : ℚ),
      ((some path, m) : Option String × ℚ) ∈ recorded →
      ((some path, m') : Option String × ℚ) ∈ existing_files st →
      (∀ q, ((some path, q) : Option String × ℚ) ∈ recorded → q ≠ m') →
      ((some path, m') : Option String × ℚ) ∈ existing_files st \ recorded) ∧
    (∀ path : String, '\n' ∉ path.toList →
      (matchesRpmExpr path = true ↔
        ∃ pre, path.toList = pre ++ ['.', 'r', 'p', 'm'])) := by
  refine ⟨?_, ?_, ?_, ?_, ?_⟩
  · rw [files_to_add, h]
    rfl
  · intro p m
    constructor
    · intro hm
      rw [existing_files, List.mem_toFinset, List.mem_map] at hm
      obtain ⟨path, hpath, heq⟩ := hm
      rw [List.mem_filter] at hpath
      refine ⟨path, ?_, hpath.1, hpath.2, ?_⟩
      · exact (congrArg Prod.fst heq).symm
      · exact (congrArg Prod.snd heq).symm
    · rintro ⟨path, hp, hin, hmatch, hm⟩
      rw [existing_files, List.mem_toFinset, List.mem_map]
      refine ⟨path, ?_, ?_⟩
      · rw [List.mem_filter]
        exact ⟨hin, hmatch⟩
      · rw [hp, hm]
  · intro pr hpr hmem
    exact (Finset.mem_sdiff.mp hmem).2 hpr
  · intro path m m' _ hex hall
    exact Finset.mem_sdiff.mpr ⟨hex, fun hc => hall m' hc rfl⟩
  · intro path hn
    have hlast : ¬ path.toList.getLast? = some '\n' := by
      intro hl
      exact hn (List.mem_of_mem_getLast? hl)
    have hcore : (if path.toList.getLast? = some '\n' then path.toList.dropLast
        else path.toList) = path.toList := if_neg hlast
    have hcont : (path.toList.take (path.toList.length - 4)).contains '\n' = false :=
      contains_eq_false_of_not_mem _ _ (fun hc => hn (List.take_subset _ _ hc))
    constructor
    · intro hm
      rw [matchesRpmExpr] at hm
      simp only [hcore, hcont, Bool.and_eq_true, decide_eq_true_eq,
        beq_iff_eq, Bool.not_false, and_true] at hm
      obtain ⟨hlen, hdrop⟩ := hm
      refine ⟨path.toList.take (path.toList.length - 4), ?_⟩
      rw [← hdrop]
      exact (List.take_append_drop _ _).symm
    · rintro ⟨pre, hpre⟩
      rw [matchesRpmExpr]
      simp only [hcore, hcont, Bool.and_eq_true, decide_eq_true_eq,
        beq_iff_eq, Bool.not_false, and_true]
      have hlen : path.toList.length = pre.length + 4 := by
        rw [hpre]
        simp
      constructor
      · omega
      · rw [hpre]
        have hl2 : (pre ++ ['.', 'r', 'p', 'm']).length - 4 = pre.length := by
          simp
        rw [hl2]
        exact List.drop_left pre ['.', 'r', 'p', 'm']

/-- Witness for C1 at the spec's example: an index recording
`(a.rpm, "100")` against storage reporting `a.rpm` with mtime `100`
yields an empty to-ingest set; with mtime `200` it yields exactly
`(a.rpm, 200)` while the recorded pair is unchanged. -/
theorem claim_c1_witness :
    files_to_add sampleIndex (sampleStorage ((100 : ℕ) : ℚ)) =
      some (existing_files (sampleStorage ((100 : ℕ) : ℚ)) \
        [((some "a.rpm" : Option String), ((100 : ℕ) : ℚ))].toFinset) ∧
    files_to_add sampleIndex (sampleStorage ((200 : ℕ) : ℚ)) =
      some (existing_files (sampleStorage ((200 : ℕ) : ℚ)) \
        [((some "a.rpm" : Option String), ((100 : ℕ) : ℚ))].toFinset) ∧
    existing_files (sampleStorage ((100 : ℕ) : ℚ)) \
      [((some "a.rpm" : Option String), ((100 : ℕ) : ℚ))].toFinset = ∅ ∧
    existing_files (sampleStorage ((200 : ℕ) : ℚ)) \
      [((some "a.rpm" : Option String), ((100 : ℕ) : ℚ))].toFinset =
      [((some "a.rpm" : Option String), ((200 : ℕ) : ℚ))].toFinset := by
  refine ⟨(claim_c1_update_repo_diff sampleIndex (sampleStorage ((100 : ℕ) : ℚ))
      _ (by rfl)).1,
    (claim_c1_update_repo_diff sampleIndex (sampleStorage ((200 : ℕ) : ℚ))
      _ (by rfl)).1, by decide, by decide⟩
